import Mathlib

/-!
K60 serial line driver and inhibit counters.

A shallow embedding of `cpu/arm/k60/drivers/uart.c` together with the inhibit
counters declared in `cpu/arm/k60/include/llwu.h`.

* Machine integers are natural numbers, reduced modulo `2 ^ w` wherever the C
  code stores them in a `w`-bit object.
* Volatile register reads are inputs: every interrupt entry is handed the values
  its reads return, every busy-wait loop is handed the stream of values that the
  successive reads of the status register return.
* Register accesses, callback invocations and inhibit-counter operations are
  logged, in program order, in a list of events.
-/

namespace K60

/-! ## Definitions -/

/-- Modelled from the spec: `exclusive_increment` of `synchronization.h`, a header that is
not among the sources. One uncontended pass of the read, compute, conditional-store cycle
on a counter declared `volatile uint32_t` in `llwu.h`: the stored value is the value read
plus one, in 32-bit unsigned arithmetic (modulo 2 ^ 32 = 4294967296). -/
def exclusive_increment (v : Nat) : Nat := (v + 1) % 4294967296

/-- Modelled from the spec: `exclusive_decrement` of `synchronization.h`, a header that is
not among the sources. One uncontended pass of the read, compute, conditional-store cycle:
the stored value is the value read minus one, in 32-bit unsigned arithmetic. The spec does
not defend against decrementing zero: there the subtraction wraps to 2 ^ 32 - 1. -/
def exclusive_decrement (v : Nat) : Nat :=
  if v = 0 then 4294967295 else (v - 1) % 4294967296

/-- Bit masks of the status registers `S1` and `S2`. They are declared in the device
header `K60.h`, so the driver is embedded for arbitrary mask values. -/
structure UartMasks where
  UART_S1_RDRF_MASK : Nat
  UART_S2_RAF_MASK : Nat
  UART_S2_RXEDGIF_MASK : Nat

/-- Software state shared by the driver and the sleep arbiter: the callback slots
`rx_callback[]`, the activity latches `receiving[]` (function-static in `rx_irq_handler`)
and the three inhibit counters of `llwu.h`. A callback is identified by its address. -/
structure Driver where
  rx_callback : Nat → Option Nat
  receiving : Nat → Nat
  llwu_inhibit_lls_sema : Nat
  llwu_inhibit_vlps_sema : Nat
  llwu_inhibit_stop_sema : Nat

/-- Observable actions of the driver, in program order. -/
inductive Event where
  | readS1 (uart_num : Nat)
  | readD (uart_num : Nat) (c : Nat)
  | readS2 (uart_num : Nat)
  | writeS2 (uart_num : Nat) (v : Nat)
  | writeD (uart_num : Nat) (v : Nat)
  | callback (uart_num : Nat) (fn : Nat) (c : Nat)
  | inhibit_stop (uart_num : Nat)
  | uninhibit_stop (uart_num : Nat)
  deriving DecidableEq, Repr

/-- Array store `a[i] = v`. -/
def store (a : Nat → Nat) (i v : Nat) : Nat → Nat := fun j => if j = i then v else a j

/-- Values returned by the volatile reads of one `rx_irq_handler` entry: `S1` (line 18),
`D` (line 19, read only when RDRF is set), `S2` at the idle check (line 24) and `S2` at the
edge check (line 32). -/
structure RxIrqReads where
  S1 : Nat
  D : Nat
  S2_idle : Nat
  S2_edge : Nat

/-- The slot write of `uart_set_rx_callback(uart_num, callback)`:
`rx_callback[uart_num] = callback`, with `none` for `NULL`. -/
def uart_set_rx_callback (uart_num : Nat) (callback : Option Nat) (s : Driver) : Driver :=
  { s with rx_callback := fun j => if j = uart_num then callback else s.rx_callback j }

/-- Lines 18-23 of `rx_irq_handler`: when RDRF is set in `S1`, read `D` into the
`uint8_t` variable `c` and hand it to the callback unless the slot is `NULL`. The callback
body is client code outside the driver: its invocation is logged, with the byte passed. -/
def rx_data_ready (m : UartMasks) (uart_num : Nat) (r : RxIrqReads) (s : Driver) :
    List Event :=
  if r.S1 &&& m.UART_S1_RDRF_MASK ≠ 0 then
    match s.rx_callback uart_num with
    | some fn =>
      [Event.readS1 uart_num, Event.readD uart_num (r.D % 256),
        Event.callback uart_num fn (r.D % 256)]
    | none => [Event.readS1 uart_num, Event.readD uart_num (r.D % 256)]
  else [Event.readS1 uart_num]

/-- Lines 24-30 of `rx_irq_handler`: when RAF is clear in `S2` and the latch is not zero,
clear the latch and call `LLWU_UNINHIBIT_STOP()`. -/
def rx_idle_check (m : UartMasks) (uart_num : Nat) (r : RxIrqReads) (s : Driver) :
    Driver × List Event :=
  if r.S2_idle &&& m.UART_S2_RAF_MASK = 0 then
    if s.receiving uart_num ≠ 0 then
      ({ s with
          receiving := store s.receiving uart_num 0
          llwu_inhibit_stop_sema := exclusive_decrement s.llwu_inhibit_stop_sema },
        [Event.readS2 uart_num, Event.uninhibit_stop uart_num])
    else (s, [Event.readS2 uart_num])
  else (s, [Event.readS2 uart_num])

/-- Lines 32-40 of `rx_irq_handler`: when RXEDGIF is set in `S2`, call
`LLWU_INHIBIT_STOP()` and set the latch if the latch is zero, then write the mask back to
`S2` to clear the flag. -/
def rx_edge_check (m : UartMasks) (uart_num : Nat) (r : RxIrqReads) (s : Driver) :
    Driver × List Event :=
  if r.S2_edge &&& m.UART_S2_RXEDGIF_MASK ≠ 0 then
    if s.receiving uart_num = 0 then
      ({ s with
          llwu_inhibit_stop_sema := exclusive_increment s.llwu_inhibit_stop_sema
          receiving := store s.receiving uart_num 1 },
        [Event.readS2 uart_num, Event.inhibit_stop uart_num,
          Event.writeS2 uart_num m.UART_S2_RXEDGIF_MASK])
    else (s, [Event.readS2 uart_num, Event.writeS2 uart_num m.UART_S2_RXEDGIF_MASK])
  else (s, [Event.readS2 uart_num])

/-- The receive interrupt handler `rx_irq_handler(uart_num)`: data-ready block, idle
check, edge check, in that order. Returns the new state and the events of the entry. -/
def rx_irq_handler (m : UartMasks) (uart_num : Nat) (r : RxIrqReads) (s : Driver) :
    Driver × List Event :=
  let t1 := rx_data_ready m uart_num r s
  let p2 := rx_idle_check m uart_num r s
  let p3 := rx_edge_check m uart_num r p2.1
  (p3.1, t1 ++ p2.2 ++ p3.2)

/-- One interrupt entry: the line it is taken on and the values its reads return. -/
structure RxEntry where
  uart_num : Nat
  reads : RxIrqReads

/-- A finite sequence of `rx_irq_handler` entries, run one after the other. -/
def rx_run (m : UartMasks) : List RxEntry → Driver → Driver × List Event
  | [], s => (s, [])
  | e :: es, s =>
    let p := rx_irq_handler m e.uart_num e.reads s
    let q := rx_run m es p.1
    (q.1, p.2 ++ q.2)

/-- Number of `LLWU_INHIBIT_STOP()` calls issued by line `l` in a trace. -/
def stopIncs (l : Nat) (t : List Event) : Nat := t.count (Event.inhibit_stop l)

/-- Number of `LLWU_UNINHIBIT_STOP()` calls issued by line `l` in a trace. -/
def stopDecs (l : Nat) (t : List Event) : Nat := t.count (Event.uninhibit_stop l)

/-- Number of lines below `n` whose activity latch is set. -/
def activeLines (n : Nat) (s : Driver) : Nat :=
  (List.range n).countP (fun l => s.receiving l != 0)

/-- Effect of one event on the STOP counter. -/
def stop_step (v : Nat) : Event → Nat
  | Event.inhibit_stop _ => exclusive_increment v
  | Event.uninhibit_stop _ => exclusive_decrement v
  | _ => v

/-- The STOP counter after the counter operations of a trace, starting from `v`. -/
def replay_stop (v : Nat) (t : List Event) : Nat := t.foldl stop_step v

/-- The STOP-counter operations and callback invocations of a trace, register accesses
left out. -/
def visible : List Event → List Event
  | [] => []
  | Event.inhibit_stop l :: t => Event.inhibit_stop l :: visible t
  | Event.uninhibit_stop l :: t => Event.uninhibit_stop l :: visible t
  | Event.callback l fn c :: t => Event.callback l fn c :: visible t
  | _ :: t => visible t

/-- The STOP-counter operations of a trace. -/
def stopOps : List Event → List Event
  | [] => []
  | Event.inhibit_stop l :: t => Event.inhibit_stop l :: stopOps t
  | Event.uninhibit_stop l :: t => Event.uninhibit_stop l :: stopOps t
  | _ :: t => stopOps t

/-- The STOP counter never reads below `b` while the operations of a trace are applied,
one after the other, starting from the value `v`. -/
def staysAbove (b : Nat) : Nat → List Event → Prop
  | v, [] => b ≤ v
  | v, e :: t => b ≤ v ∧ staysAbove b (stop_step v e) t

/-- Reads of the data register `D`. -/
def isReadD : Event → Bool
  | Event.readD _ _ => true
  | _ => false

/-- Invocations of a receive callback. -/
def isCallback : Event → Bool
  | Event.callback _ _ _ => true
  | _ => false

/-- Accesses to the registers `S1` and `D`. -/
def isS1orD : Event → Bool
  | Event.readS1 _ => true
  | Event.readD _ _ => true
  | _ => false

/-- Bit positions of the transmit flags TDRE and TC in `S1`. They are declared in the
device header `K60.h`, so the transmit path is embedded for arbitrary positions. -/
structure UartShifts where
  UART_S1_TDRE_SHIFT : Nat
  UART_S1_TC_SHIFT : Nat

/-- Modelled from the spec: `BITBAND_REG8`, the bit-addressed register access of `K60.h`
(a header that is not among the sources), which the spec takes as a given primitive. A read
through the alias of bit `bit` of a register returns the value of that bit of the register
value `reg`. -/
def BITBAND_REG8 (reg bit : Nat) : Nat := (reg >>> bit) % 2

/-- The busy-wait loop `while (BITBAND_REG8(uart_dev->S1, bit) == 0) { }` of `uart_putchar`.
`S1 k` is the value the `k`-th read of the status register returns and `t` the index of the
next read. Returns the index of the next read after the loop and the reads performed, or
`none` when the loop is still spinning after `fuel` reads. -/
def spin (S1 : Nat → Nat) (uart_num bit : Nat) : Nat → Nat → Option (Nat × List Event)
  | 0, _ => none
  | fuel + 1, t =>
    if BITBAND_REG8 (S1 t) bit = 0 then
      match spin S1 uart_num bit fuel (t + 1) with
      | some (t2, tr) => some (t2, Event.readS1 uart_num :: tr)
      | none => none
    else some (t + 1, [Event.readS1 uart_num])

/-- The blocking transmit `uart_putchar(uart_num, ch)`: wait for TDRE, write `(uint8_t)ch`
to `D`, wait for TC. Returns the driver state, the index of the next status read and the
events, or `none` when one of the loops is still spinning after `fuel` reads. -/
def uart_putchar (sh : UartShifts) (S1 : Nat → Nat) (fuel uart_num ch t : Nat) (s : Driver) :
    Option (Driver × Nat × List Event) :=
  match spin S1 uart_num sh.UART_S1_TDRE_SHIFT fuel t with
  | none => none
  | some (t1, tr1) =>
    match spin S1 uart_num sh.UART_S1_TC_SHIFT fuel t1 with
    | none => none
    | some (t2, tr2) => some (s, t2, tr1 ++ [Event.writeD uart_num (ch % 256)] ++ tr2)

/-- The string transmit `uart_putstring(uart_num, str)`: `while (*p) uart_putchar(uart_num,
*p++)`. The list holds the bytes stored from `str` on; running off its end without meeting
a NUL leaves the modelled memory and gives `none`, as does a transmit that runs out of
fuel. -/
def uart_putstring (sh : UartShifts) (S1 : Nat → Nat) (fuel uart_num : Nat) :
    List Nat → Nat → Driver → Option (Driver × Nat × List Event)
  | [], _, _ => none
  | c :: p, t, s =>
    if c = 0 then some (s, t, [])
    else
      match uart_putchar sh S1 fuel uart_num c t s with
      | none => none
      | some (s1, t1, tr1) =>
        match uart_putstring sh S1 fuel uart_num p t1 s1 with
        | none => none
        | some (s2, t2, tr2) => some (s2, t2, tr1 ++ tr2)

/-- The values written to the data register `D` in a trace, in order. -/
def dataWrites : List Event → List Nat
  | [] => []
  | Event.writeD _ v :: t => v :: dataWrites t
  | _ :: t => dataWrites t

/-- The events of one complete transmit cycle per byte under an always-ready status: TDRE
check, write, TC check. -/
def putchar_cycles (uart_num : Nat) : List Nat → List Event
  | [] => []
  | c :: cs =>
    [Event.readS1 uart_num, Event.writeD uart_num c, Event.readS1 uart_num]
      ++ putchar_cycles uart_num cs

/-- A status stream for concrete runs: two reads with neither flag set, two reads with TDRE
alone (0x80), then TDRE and TC (0xC0) from the fifth read on. -/
def slowStatus (k : Nat) : Nat := if k < 2 then 0 else if k < 4 then 128 else 192

/-- The transmit flag positions of the K60 reference manual: TDRE is bit 7 and TC bit 6 of
S1. Used for concrete runs only. -/
def k60Shifts : UartShifts := { UART_S1_TDRE_SHIFT := 7, UART_S1_TC_SHIFT := 6 }

/-- A call on an inhibit counter: `LLWU_INHIBIT_x()` or `LLWU_UNINHIBIT_x()`. -/
inductive Op where
  | inc
  | dec
  deriving DecidableEq, Repr

/-- The value a call stores for the value it has read. -/
def apply_op : Op → Nat → Nat
  | Op.inc, v => exclusive_increment v
  | Op.dec, v => exclusive_decrement v

/-- The counter after a sequence of calls, each applied to the value left by the one before. -/
def applyOps (v : Nat) (ops : List Op) : Nat := ops.foldl (fun w op => apply_op op w) v

/-- One execution context running calls on the counter: the calls it still has to complete
(the head is the call in progress), the value read by the exclusive load of the current pass
(`none` before the load), and whether its exclusive reservation is still held. -/
structure Ctx where
  prog : List Op
  tmp : Option Nat
  reserved : Bool

/-- The two contexts of the single core. -/
inductive Context where
  | foreground
  | interrupt
  deriving DecidableEq, Repr

/-- The counter, the two contexts and the log of completed calls in the order of their
successful stores. -/
structure Machine where
  mem : Nat
  fg : Ctx
  irq : Ctx
  done : List Op

/-- One slot of an interleaving: which context executes its next instruction, and whether
the exclusive store, if that is the instruction, fails although the reservation is held.
Slots may come in any order, so the interleavings a single core produces, where the
interrupt context runs to completion once entered, are among those covered. -/
structure Slot where
  who : Context
  spurious : Bool

/-- Modelled from the spec: the compare-and-retry protocol of `exclusive_increment` and
`exclusive_decrement` (`synchronization.h`, not among the sources), one instruction of the
context `me`. Before the load: read the current value exclusively and take the reservation.
After the load: attempt the exclusive conditional store of the new value; it succeeds only
while the reservation is held, completes the call and breaks the reservation of the other
context; otherwise the whole read-compute-store cycle is retried. A context without calls
does nothing. -/
def pass (mem : Nat) (me other : Ctx) (done : List Op) (spurious : Bool) :
    Nat × Ctx × Ctx × List Op :=
  match me.prog with
  | [] => (mem, me, other, done)
  | op :: rest =>
    match me.tmp with
    | none => (mem, { me with tmp := some mem, reserved := true }, other, done)
    | some v =>
      if me.reserved = true ∧ spurious = false then
        (apply_op op v, { prog := rest, tmp := none, reserved := false },
          { other with reserved := false }, done ++ [op])
      else (mem, { me with tmp := none, reserved := false }, other, done)

/-- One slot of the interleaving. -/
def step (st : Machine) (sl : Slot) : Machine :=
  match sl.who with
  | Context.foreground =>
    let r := pass st.mem st.fg st.irq st.done sl.spurious
    { mem := r.1, fg := r.2.1, irq := r.2.2.1, done := r.2.2.2 }
  | Context.interrupt =>
    let r := pass st.mem st.irq st.fg st.done sl.spurious
    { mem := r.1, fg := r.2.2.1, irq := r.2.1, done := r.2.2.2 }

/-- An interleaving, slot by slot. -/
def run (sched : List Slot) (st : Machine) : Machine := sched.foldl step st

/-- Both contexts about to start their calls on a counter holding `v`. -/
def startMachine (v : Nat) (fgCalls irqCalls : List Op) : Machine :=
  { mem := v
    fg := { prog := fgCalls, tmp := none, reserved := false }
    irq := { prog := irqCalls, tmp := none, reserved := false }
    done := [] }

/-- A sequence of calls that, started on the value `v`, never decrements zero and never
increments 2 ^ 32 - 1. -/
def noWrap : Nat → List Op → Bool
  | _, [] => true
  | v, Op.inc :: t => decide (v + 1 < 4294967296) && noWrap (v + 1) t
  | v, Op.dec :: t => decide (0 < v) && noWrap (v - 1) t

/-- A sequence of calls in which every decrement is preceded by an increment (or one of the
`b` increments already outstanding) that it pairs with. -/
def pairedFrom : Nat → List Op → Bool
  | _, [] => true
  | b, Op.inc :: t => pairedFrom (b + 1) t
  | b, Op.dec :: t => decide (0 < b) && pairedFrom (b - 1) t

/-- A context that still holds its reservation has read the value the counter holds now. -/
def Coherent (mem : Nat) (c : Ctx) : Prop :=
  ∀ v, c.tmp = some v → c.reserved = true → v = mem

/-- Slot of the foreground context, store not failing spuriously. -/
def fgSlot : Slot := { who := Context.foreground, spurious := false }

/-- Slot of the interrupt context, store not failing spuriously. -/
def irqSlot : Slot := { who := Context.interrupt, spurious := false }

/-- State with all latches clear, no callback and the STOP counter at `v`. -/
def bootState (v : Nat) : Driver :=
  { rx_callback := fun _ => none
    receiving := fun _ => 0
    llwu_inhibit_lls_sema := 0
    llwu_inhibit_vlps_sema := 0
    llwu_inhibit_stop_sema := v }

/-- The masks of the K60 reference manual: RDRF is bit 5 of S1, RAF bit 0 and RXEDGIF
bit 6 of S2. Used for concrete runs only. -/
def k60Masks : UartMasks :=
  { UART_S1_RDRF_MASK := 0x20, UART_S2_RAF_MASK := 0x01, UART_S2_RXEDGIF_MASK := 0x40 }

/-- Register values for one entry: `S1`, `D`, `S2` at the idle check, `S2` at the edge
check. -/
def rxReads (S1 D S2_idle S2_edge : Nat) : RxIrqReads :=
  { S1 := S1, D := D, S2_idle := S2_idle, S2_edge := S2_edge }

/-- An entry made of raw register values. -/
def entry (uart_num S1 D S2_idle S2_edge : Nat) : RxEntry :=
  { uart_num := uart_num, reads := { S1 := S1, D := D, S2_idle := S2_idle, S2_edge := S2_edge } }

/-! ### Sleep-depth policy -/

/-- The sleep depths, shallowest first: idle < STOP < VLPS < LLS. -/
inductive SleepDepth where
  | idle
  | stop
  | vlps
  | lls
  deriving DecidableEq, Repr

/-- Position of a depth in the order idle < STOP < VLPS < LLS. -/
def SleepDepth.rank : SleepDepth → Nat
  | SleepDepth.idle => 0
  | SleepDepth.stop => 1
  | SleepDepth.vlps => 2
  | SleepDepth.lls => 3

/-- The `struct llwu_control` of `llwu.h`: the `char allow_llwu` flag (0 disallows deep
sleep, any other value allows it). The `next` link is the order of the list the controllers
are kept in. -/
structure llwu_control where
  allow_llwu : Nat
  deriving DecidableEq, Repr

/-- Modelled from the spec: the inhibit counter of a depth (`llwu_inhibit_stop_sema`,
`llwu_inhibit_vlps_sema`, `llwu_inhibit_lls_sema` of `llwu.h`); idle has no counter. -/
def inhibit_count (s : Driver) : SleepDepth → Nat
  | SleepDepth.idle => 0
  | SleepDepth.stop => s.llwu_inhibit_stop_sema
  | SleepDepth.vlps => s.llwu_inhibit_vlps_sema
  | SleepDepth.lls => s.llwu_inhibit_lls_sema

/-- Modelled from the spec: rules (1) and (2) of the policy evaluation of `llwu_sleep`
(`llwu.c`, not among the sources). A depth is forbidden when the counter of that depth or of
a shallower depth is not zero, or when it is deeper than idle and some registered controller
has `allow = false`. -/
def forbidden (s : Driver) (cs : List llwu_control) (d : SleepDepth) : Bool :=
  [SleepDepth.stop, SleepDepth.vlps, SleepDepth.lls].any
      (fun D => decide (D.rank ≤ d.rank) && inhibit_count s D != 0)
    || (decide (0 < d.rank) && cs.any (fun c => c.allow_llwu == 0))

/-- Modelled from the spec: the depth `llwu_sleep` (`llwu.c`, not among the sources) commits
to, rule (3) of the policy evaluation: the depths are tried from the deepest down and the
first one that is not forbidden is taken; idle is the fallback. -/
def llwu_sleep (s : Driver) (cs : List llwu_control) : SleepDepth :=
  if forbidden s cs SleepDepth.lls = false then SleepDepth.lls
  else if forbidden s cs SleepDepth.vlps = false then SleepDepth.vlps
  else if forbidden s cs SleepDepth.stop = false then SleepDepth.stop
  else SleepDepth.idle

/-! ### Bit-band addresses -/

/-- The macro `BITBAND_ADDR(addr, bit)` of `cpu_conf.h`, evaluated in 32-bit unsigned
arithmetic: `(addr & 0xF0000000) + 0x2000000 + ((addr & 0xFFFFF) << 5) + (bit << 2)`. -/
def BITBAND_ADDR (addr bit : Nat) : Nat :=
  ((addr % 4294967296 &&& 0xF0000000) + 0x2000000
    + ((addr % 4294967296 &&& 0xFFFFF) <<< 5) % 4294967296
    + (bit <<< 2) % 4294967296) % 4294967296

/-! ### Line configuration -/

/-- Constants of the device header `K60.h` used by the configuration functions: register
masks, bit positions and clock-gate bit positions. The header is not among the sources, so
the functions are embedded for arbitrary values. -/
structure UartConsts where
  UART_C2_TE_MASK : Nat
  UART_C2_RE_MASK : Nat
  UART_C2_RIE_MASK : Nat
  UART_BDH_RXEDGIE_MASK : Nat
  UART_BDH_SBR_MASK : Nat
  UART_BDL_SBR_MASK : Nat
  UART_C4_BRFA_MASK : Nat
  UART_PFIFO_RXFE_SHIFT : Nat
  UART_PFIFO_TXFE_SHIFT : Nat
  UART_CFIFO_RXFLUSH_MASK : Nat
  UART_CFIFO_TXFLUSH_MASK : Nat
  SIM_SCGC4_UART0_SHIFT : Nat
  SIM_SCGC4_UART1_SHIFT : Nat
  SIM_SCGC4_UART2_SHIFT : Nat
  SIM_SCGC4_UART3_SHIFT : Nat
  SIM_SCGC1_UART4_SHIFT : Nat
  SIM_SCGC1_UART5_SHIFT : Nat

/-- The 8-bit configuration registers of one `UART_Type` that the driver writes. -/
structure UartRegs where
  BDH : Nat
  BDL : Nat
  C1 : Nat
  C2 : Nat
  C4 : Nat
  PFIFO : Nat
  TWFIFO : Nat
  RWFIFO : Nat
  CFIFO : Nat

/-- Hardware registers written by the configuration functions: the clock-gate registers
`SIM->SCGC1` and `SIM->SCGC4` and the registers of `UART[uart_num]`. -/
structure Hw where
  SCGC1 : Nat
  SCGC4 : Nat
  uart : Nat → UartRegs

/-- The globals `SystemSysClock` and `SystemBusClock`. -/
structure Clocks where
  SystemSysClock : Nat
  SystemBusClock : Nat

/-- What the configuration functions report besides register writes: the debug trap
`DEBUGGER_BREAK(BREAK_INVALID_PARAM)` and `NVIC_EnableIRQ(UARTn_RX_TX_IRQn)` for line `n`. -/
inductive SysEvent where
  | debugger_break_invalid_param
  | nvic_enable_irq (uart_num : Nat)
  deriving DecidableEq, Repr

/-- The C expression `x & ~m`. -/
def clearBits (x m : Nat) : Nat := x ^^^ (x &&& m)

/-- Modelled from the spec: a write through `BITBAND_REG32` or `BITBAND_REG8` (`K60.h`, not
among the sources), the bit-addressed register access the spec takes as a given primitive.
Writing `val` to the alias of bit `bit` makes that bit of the register the lowest bit of
`val` and leaves the other bits as they are. -/
def BITBAND_write (reg bit val : Nat) : Nat :=
  if val % 2 = 0 then clearBits reg (1 <<< bit) else reg ||| (1 <<< bit)

/-- Register store `UART[i] = r`. -/
def storeRegs (a : Nat → UartRegs) (i : Nat) (r : UartRegs) : Nat → UartRegs :=
  fun j => if j = i then r else a j

/-- The function `uart_module_enable(uart_num)`: set the clock-gate bit of the module, or
report the debug trap for an unknown module number. -/
def uart_module_enable (k : UartConsts) (uart_num : Nat) (hw : Hw) : Hw × List SysEvent :=
  match uart_num with
  | 0 => ({ hw with SCGC4 := BITBAND_write hw.SCGC4 k.SIM_SCGC4_UART0_SHIFT 1 }, [])
  | 1 => ({ hw with SCGC4 := BITBAND_write hw.SCGC4 k.SIM_SCGC4_UART1_SHIFT 1 }, [])
  | 2 => ({ hw with SCGC4 := BITBAND_write hw.SCGC4 k.SIM_SCGC4_UART2_SHIFT 1 }, [])
  | 3 => ({ hw with SCGC4 := BITBAND_write hw.SCGC4 k.SIM_SCGC4_UART3_SHIFT 1 }, [])
  | 4 => ({ hw with SCGC1 := BITBAND_write hw.SCGC1 k.SIM_SCGC1_UART4_SHIFT 1 }, [])
  | 5 => ({ hw with SCGC1 := BITBAND_write hw.SCGC1 k.SIM_SCGC1_UART5_SHIFT 1 }, [])
  | _ => (hw, [SysEvent.debugger_break_invalid_param])

/-- The clock-gate bit position `uart_module_enable` uses for each module number: the
`SIM_SCGC4_UARTn_SHIFT` constants for 0..3, the `SIM_SCGC1_UARTn_SHIFT` constants for 4 and
5. -/
def clockGateShift (k : UartConsts) : Nat → Nat
  | 0 => k.SIM_SCGC4_UART0_SHIFT
  | 1 => k.SIM_SCGC4_UART1_SHIFT
  | 2 => k.SIM_SCGC4_UART2_SHIFT
  | 3 => k.SIM_SCGC4_UART3_SHIFT
  | 4 => k.SIM_SCGC1_UART4_SHIFT
  | _ => k.SIM_SCGC1_UART5_SHIFT

/-- Modelled from the spec: `UART_SBR(f, b)` of `uart.h` (not among the sources), the
integer divisor `round(clock / (16 × baud))`, halves rounded up. -/
def UART_SBR (f b : Nat) : Nat := (f + 8 * b) / (16 * b)

/-- Modelled from the spec: `UART_BRFA(f, b)` of `uart.h` (not among the sources), the
fine-adjust fraction in steps of 1/32 of a divisor count: `clock / (16 × baud)` rounded to
the nearest 32nd, less the integer divisor, kept inside the 5-bit range 0..31. -/
def UART_BRFA (f b : Nat) : Nat := min 31 ((4 * f + b) / (2 * b) - 32 * UART_SBR f b)

/-- Modelled from the spec: the field macro `UART_BDH_SBR(x)` of `K60.h` (not among the
sources): the value as a `uint8_t`, masked to the divisor bits of `BDH`. -/
def UART_BDH_SBR (k : UartConsts) (x : Nat) : Nat := x % 256 &&& k.UART_BDH_SBR_MASK

/-- Modelled from the spec: the field macro `UART_BDL_SBR(x)` of `K60.h` (not among the
sources): the value as a `uint8_t`, masked to the divisor bits of `BDL`. -/
def UART_BDL_SBR (k : UartConsts) (x : Nat) : Nat := x % 256 &&& k.UART_BDL_SBR_MASK

/-- Modelled from the spec: the field macro `UART_C4_BRFA(x)` of `K60.h` (not among the
sources): the value as a `uint8_t`, masked to the fine-adjust bits of `C4`. -/
def UART_C4_BRFA (k : UartConsts) (x : Nat) : Nat := x % 256 &&& k.UART_C4_BRFA_MASK

/-- Lines 95-110 of `uart_init`: the module clock the divisor is computed from, or `none`
when the `default` branch reports the debug trap and returns. -/
def uart_init_clock (clk : Clocks) (uart_num module_clk_hz : Nat) : Option Nat :=
  if module_clk_hz = 0 then
    match uart_num with
    | 0 => some clk.SystemSysClock
    | 1 => some clk.SystemSysClock
    | 2 => some clk.SystemBusClock
    | 3 => some clk.SystemBusClock
    | 4 => some clk.SystemBusClock
    | _ => none
  else some module_clk_hz

/-- Lines 115-149 of `uart_init`: compute the `uint16_t` values `sbr` and `brfa` and program
the registers of the line, every store reduced to the 8 bits of the register. -/
def uart_init_regs (k : UartConsts) (f baud : Nat) (r : UartRegs) : UartRegs :=
  let sbr := UART_SBR f baud % 65536
  let brfa := UART_BRFA f baud % 65536
  let r1 := { r with C2 := clearBits r.C2 (k.UART_C2_TE_MASK ||| k.UART_C2_RE_MASK) % 256 }
  let r2 := { r1 with C1 := 0 }
  let r3 := { r2 with
    BDH := (clearBits r2.BDH k.UART_BDH_SBR_MASK ||| UART_BDH_SBR k (sbr >>> 8)) % 256 }
  let r4 := { r3 with
    BDL := (clearBits r3.BDL k.UART_BDL_SBR_MASK ||| UART_BDL_SBR k sbr) % 256 }
  let r5 := { r4 with
    C4 := (clearBits r4.C4 k.UART_C4_BRFA_MASK ||| UART_C4_BRFA k brfa) % 256 }
  let r6 := { r5 with PFIFO := BITBAND_write r5.PFIFO k.UART_PFIFO_RXFE_SHIFT 1 % 256 }
  let r7 := { r6 with PFIFO := BITBAND_write r6.PFIFO k.UART_PFIFO_TXFE_SHIFT 0 % 256 }
  let r8 := { r7 with TWFIFO := 0 }
  let r9 := { r8 with RWFIFO := 1 }
  let r10 := { r9 with
    CFIFO := (k.UART_CFIFO_RXFLUSH_MASK ||| k.UART_CFIFO_TXFLUSH_MASK) % 256 }
  { r10 with C2 := (r10.C2 ||| k.UART_C2_TE_MASK) % 256 }

/-- Lines 152-183 of `uart_init`: enable the interrupt of the line when the line is one of
0..5 and compiled in (`UARTn_CONF_ENABLE`). -/
def uart_init_irq (conf_enable : Nat → Bool) (uart_num : Nat) : List SysEvent :=
  if uart_num ≤ 5 ∧ conf_enable uart_num = true then [SysEvent.nvic_enable_irq uart_num]
  else []

/-- The function `uart_init(uart_num, module_clk_hz, baud)`: pick the module clock (or trap
and return), enable the clock gate, program the divisor and the FIFOs, enable the
transmitter and the interrupt. Returns the registers and what was reported. The C code
does not return when `uart_module_enable` has reported the trap: it goes on to program the
registers behind `UART[uart_num]`, which the model keeps at index `uart_num`. -/
def uart_init (k : UartConsts) (clk : Clocks) (conf_enable : Nat → Bool)
    (uart_num module_clk_hz baud : Nat) (hw : Hw) : Hw × List SysEvent :=
  match uart_init_clock clk uart_num module_clk_hz with
  | none => (hw, [SysEvent.debugger_break_invalid_param])
  | some f =>
    let p := uart_module_enable k uart_num hw
    ({ p.1 with uart := storeRegs p.1.uart uart_num (uart_init_regs k f baud (p.1.uart uart_num)) },
      p.2 ++ uart_init_irq conf_enable uart_num)

/-- The function `uart_enable_rx_interrupt(uart_num)`: set RIE in `C2`, RXEDGIE in `BDH`, RE
in `C2`, then `LLWU_INHIBIT_LLS()`. -/
def uart_enable_rx_interrupt (k : UartConsts) (uart_num : Nat) (hw : Hw) (s : Driver) :
    Hw × Driver :=
  let r := hw.uart uart_num
  let r1 := { r with C2 := (r.C2 ||| k.UART_C2_RIE_MASK) % 256 }
  let r2 := { r1 with BDH := (r1.BDH ||| k.UART_BDH_RXEDGIE_MASK) % 256 }
  let r3 := { r2 with C2 := (r2.C2 ||| k.UART_C2_RE_MASK) % 256 }
  ({ hw with uart := storeRegs hw.uart uart_num r3 },
    { s with llwu_inhibit_lls_sema := exclusive_increment s.llwu_inhibit_lls_sema })

/-- The function `uart_disable_rx_interrupt(uart_num)`: clear RIE in `C2`, RXEDGIE in `BDH`,
RE in `C2`, then `LLWU_UNINHIBIT_LLS()`. -/
def uart_disable_rx_interrupt (k : UartConsts) (uart_num : Nat) (hw : Hw) (s : Driver) :
    Hw × Driver :=
  let r := hw.uart uart_num
  let r1 := { r with C2 := clearBits r.C2 k.UART_C2_RIE_MASK % 256 }
  let r2 := { r1 with BDH := clearBits r1.BDH k.UART_BDH_RXEDGIE_MASK % 256 }
  let r3 := { r2 with C2 := clearBits r2.C2 k.UART_C2_RE_MASK % 256 }
  ({ hw with uart := storeRegs hw.uart uart_num r3 },
    { s with llwu_inhibit_lls_sema := exclusive_decrement s.llwu_inhibit_lls_sema })

/-- The constants of the K60 reference manual. Used for concrete runs only. -/
def k60Consts : UartConsts :=
  { UART_C2_TE_MASK := 0x08
    UART_C2_RE_MASK := 0x04
    UART_C2_RIE_MASK := 0x20
    UART_BDH_RXEDGIE_MASK := 0x40
    UART_BDH_SBR_MASK := 0x1F
    UART_BDL_SBR_MASK := 0xFF
    UART_C4_BRFA_MASK := 0x1F
    UART_PFIFO_RXFE_SHIFT := 3
    UART_PFIFO_TXFE_SHIFT := 7
    UART_CFIFO_RXFLUSH_MASK := 0x40
    UART_CFIFO_TXFLUSH_MASK := 0x80
    SIM_SCGC4_UART0_SHIFT := 10
    SIM_SCGC4_UART1_SHIFT := 11
    SIM_SCGC4_UART2_SHIFT := 12
    SIM_SCGC4_UART3_SHIFT := 13
    SIM_SCGC1_UART4_SHIFT := 10
    SIM_SCGC1_UART5_SHIFT := 11 }

/-- Registers of a line with every register at `v`. -/
def regsAll (v : Nat) : UartRegs :=
  { BDH := v, BDL := v, C1 := v, C2 := v, C4 := v, PFIFO := v, TWFIFO := v, RWFIFO := v,
    CFIFO := v }

/-- Hardware state with both clock-gate registers at 0 and every line register at `v`. -/
def hwAll (v : Nat) : Hw := { SCGC1 := 0, SCGC4 := 0, uart := fun _ => regsAll v }

/-- Clocks of a concrete run: 100 MHz system clock, 50 MHz bus clock. -/
def clocks100 : Clocks := { SystemSysClock := 100000000, SystemBusClock := 50000000 }

/-! ## Lemmas on traces -/

theorem stopOps_append (a b : List Event) : stopOps (a ++ b) = stopOps a ++ stopOps b := by
  induction a with
  | nil => rfl
  | cons e t ih => cases e <;> simp [stopOps, ih]

theorem visible_append (a b : List Event) : visible (a ++ b) = visible a ++ visible b := by
  induction a with
  | nil => rfl
  | cons e t ih => cases e <;> simp [visible, ih]

theorem replay_stop_append (v : Nat) (a b : List Event) :
    replay_stop v (a ++ b) = replay_stop (replay_stop v a) b := by
  simp [replay_stop]

theorem stopIncs_append (l : Nat) (a b : List Event) :
    stopIncs l (a ++ b) = stopIncs l a + stopIncs l b := by
  simp [stopIncs]

theorem stopDecs_append (l : Nat) (a b : List Event) :
    stopDecs l (a ++ b) = stopDecs l a + stopDecs l b := by
  simp [stopDecs]

theorem stopIncs_stopOps (l : Nat) (t : List Event) :
    stopIncs l t = (stopOps t).count (Event.inhibit_stop l) := by
  induction t with
  | nil => rfl
  | cons e t ih =>
    unfold stopIncs at ih ⊢
    cases e <;> simp [stopOps, List.count_cons, ih]

theorem stopDecs_stopOps (l : Nat) (t : List Event) :
    stopDecs l t = (stopOps t).count (Event.uninhibit_stop l) := by
  induction t with
  | nil => rfl
  | cons e t ih =>
    unfold stopDecs at ih ⊢
    cases e <;> simp [stopOps, List.count_cons, ih]

theorem replay_stop_stopOps (v : Nat) (t : List Event) :
    replay_stop v t = replay_stop v (stopOps t) := by
  induction t generalizing v with
  | nil => rfl
  | cons e t ih =>
    unfold replay_stop at ih ⊢
    cases e <;> simp only [stopOps, List.foldl_cons, stop_step, ih]

/-- The four ways one entry of the handler can act on the latch and the STOP counter. -/
theorem rx_irq_handler_summary (m : UartMasks) (u : Nat) (r : RxIrqReads) (s : Driver) :
    ((rx_irq_handler m u r s).1 = s ∧ stopOps (rx_irq_handler m u r s).2 = [])
    ∨ (s.receiving u ≠ 0 ∧
        (rx_irq_handler m u r s).1 =
          { s with
            receiving := store s.receiving u 0
            llwu_inhibit_stop_sema := exclusive_decrement s.llwu_inhibit_stop_sema } ∧
        stopOps (rx_irq_handler m u r s).2 = [Event.uninhibit_stop u])
    ∨ (s.receiving u = 0 ∧
        (rx_irq_handler m u r s).1 =
          { s with
            receiving := store s.receiving u 1
            llwu_inhibit_stop_sema := exclusive_increment s.llwu_inhibit_stop_sema } ∧
        stopOps (rx_irq_handler m u r s).2 = [Event.inhibit_stop u])
    ∨ (s.receiving u ≠ 0 ∧
        (rx_irq_handler m u r s).1 =
          { s with
            receiving := store (store s.receiving u 0) u 1
            llwu_inhibit_stop_sema :=
              exclusive_increment (exclusive_decrement s.llwu_inhibit_stop_sema) } ∧
        stopOps (rx_irq_handler m u r s).2 = [Event.uninhibit_stop u, Event.inhibit_stop u]) := by
  unfold rx_irq_handler rx_data_ready rx_idle_check rx_edge_check
  by_cases h1 : r.S1 &&& m.UART_S1_RDRF_MASK ≠ 0 <;>
  by_cases h2 : r.S2_idle &&& m.UART_S2_RAF_MASK = 0 <;>
  by_cases h3 : r.S2_edge &&& m.UART_S2_RXEDGIF_MASK ≠ 0 <;>
  by_cases h4 : s.receiving u = 0 <;>
  cases h5 : s.rx_callback u <;>
  simp [h1, h2, h3, h4, h5, stopOps, store]

/-! ## Lemmas on the latch count -/

theorem countP_range_congr (f g : Nat → Nat) (n : Nat) (h : ∀ j, j < n → g j = f j) :
    (List.range n).countP (fun l => g l != 0) = (List.range n).countP (fun l => f l != 0) := by
  apply List.countP_congr
  intro x hx
  have hx2 : x < n := List.mem_range.mp hx
  simp [h x hx2]

theorem countP_range_store (f g : Nat → Nat) (u n : Nat) (hu : u < n)
    (h : ∀ j, j ≠ u → g j = f j) :
    (List.range n).countP (fun l => g l != 0) + (if f u = 0 then 0 else 1)
      = (List.range n).countP (fun l => f l != 0) + (if g u = 0 then 0 else 1) := by
  induction n with
  | zero => omega
  | succ n ih =>
    rw [List.range_succ, List.countP_append, List.countP_append]
    by_cases hun : u = n
    · subst hun
      rw [countP_range_congr f g u (fun j hj => h j (by omega))]
      by_cases hf : f u = 0 <;> by_cases hg : g u = 0 <;> simp [hf, hg]
    · have h1 := ih (by omega)
      have hn : g n = f n := h n (by omega)
      simp only [List.countP_cons, List.countP_nil, hn]
      omega

theorem activeLines_le (n : Nat) (s : Driver) : activeLines n s ≤ n := by
  unfold activeLines
  have h := List.countP_le_length (fun l => s.receiving l != 0) (l := List.range n)
  simpa using h

theorem activeLines_store (n u v : Nat) (s s2 : Driver) (hu : u < n)
    (h : s2.receiving = store s.receiving u v) :
    activeLines n s2 + (if s.receiving u = 0 then 0 else 1)
      = activeLines n s + (if v = 0 then 0 else 1) := by
  unfold activeLines
  have h1 := countP_range_store s.receiving s2.receiving u n hu
    (fun j hj => by simp [h, store, hj])
  have h2 : s2.receiving u = v := by simp [h, store]
  rw [h2] at h1
  exact h1

/-! ## Lemmas on `staysAbove` -/

theorem staysAbove_head (b v : Nat) (t : List Event) (h : staysAbove b v t) : b ≤ v := by
  cases t with
  | nil => exact h
  | cons e t => exact h.1

theorem staysAbove_append (b v : Nat) (a c : List Event) :
    staysAbove b v (a ++ c) ↔ staysAbove b v a ∧ staysAbove b (replay_stop v a) c := by
  induction a generalizing v with
  | nil =>
    constructor
    · intro h
      exact ⟨staysAbove_head b v c h, h⟩
    · intro h
      exact h.2
  | cons e t ih =>
    have hr : replay_stop v (e :: t) = replay_stop (stop_step v e) t := rfl
    rw [hr]
    show (b ≤ v ∧ staysAbove b (stop_step v e) (t ++ c)) ↔ _
    rw [ih]
    show _ ↔ ((b ≤ v ∧ staysAbove b (stop_step v e) t) ∧ _)
    tauto

theorem staysAbove_stopOps (b v : Nat) (t : List Event) :
    staysAbove b v t ↔ staysAbove b v (stopOps t) := by
  induction t generalizing v with
  | nil => exact Iff.rfl
  | cons e t ih =>
    have key : ∀ w, staysAbove b w (stopOps t) → b ≤ w :=
      fun w h => staysAbove_head b w _ h
    cases e <;> simp only [stopOps, staysAbove, stop_step, ih] <;>
      exact ⟨fun h => h.2, fun h => ⟨key _ h, h⟩⟩

theorem staysAbove_take (b v : Nat) (t : List Event) (h : staysAbove b v t) (k : Nat) :
    b ≤ replay_stop v (t.take k) := by
  induction t generalizing v k with
  | nil => simpa [replay_stop] using h
  | cons e t ih =>
    cases k with
    | zero => exact h.1
    | succ k => exact ih (stop_step v e) h.2 k

/-! ## One entry of the receive handler -/

theorem rx_irq_handler_pairing (m : UartMasks) (u : Nat) (r : RxIrqReads) (s : Driver)
    (hs : ∀ l, s.receiving l ≤ 1) (l : Nat) :
    (rx_irq_handler m u r s).1.receiving l ≤ 1 ∧
    stopIncs l (rx_irq_handler m u r s).2 + s.receiving l
      = stopDecs l (rx_irq_handler m u r s).2 + (rx_irq_handler m u r s).1.receiving l := by
  have hl := hs l
  have hu := hs u
  rw [stopIncs_stopOps, stopDecs_stopOps]
  rcases rx_irq_handler_summary m u r s with ⟨h1, h2⟩ | ⟨h0, h1, h2⟩ | ⟨h0, h1, h2⟩ | ⟨h0, h1, h2⟩ <;>
    rw [h1, h2] <;> by_cases hlu : l = u <;> simp [store, hlu, List.count_cons] <;> omega

theorem rx_irq_handler_replay (m : UartMasks) (u : Nat) (r : RxIrqReads) (s : Driver) :
    (rx_irq_handler m u r s).1.llwu_inhibit_stop_sema
      = replay_stop s.llwu_inhibit_stop_sema (rx_irq_handler m u r s).2 := by
  rw [replay_stop_stopOps]
  rcases rx_irq_handler_summary m u r s with ⟨h1, h2⟩ | ⟨_, h1, h2⟩ | ⟨_, h1, h2⟩ | ⟨_, h1, h2⟩ <;>
    rw [h1, h2] <;> rfl

theorem store_store (a : Nat → Nat) (i v w : Nat) : store (store a i v) i w = store a i w := by
  funext j
  simp only [store]
  split <;> rfl

theorem rx_irq_handler_counter_mod (m : UartMasks) (u n : Nat) (r : RxIrqReads) (s : Driver)
    (hu : u < n) (hv : s.llwu_inhibit_stop_sema < 4294967296) :
    (rx_irq_handler m u r s).1.llwu_inhibit_stop_sema < 4294967296 ∧
    ((rx_irq_handler m u r s).1.llwu_inhibit_stop_sema + activeLines n s) % 4294967296
      = (s.llwu_inhibit_stop_sema + activeLines n (rx_irq_handler m u r s).1) % 4294967296 := by
  rcases rx_irq_handler_summary m u r s with ⟨h1, _⟩ | ⟨h0, h1, _⟩ | ⟨h0, h1, _⟩ | ⟨h0, h1, _⟩
  · rw [h1]; omega
  · have ha := activeLines_store n u 0 s (rx_irq_handler m u r s).1 hu (by rw [h1])
    have hstop : (rx_irq_handler m u r s).1.llwu_inhibit_stop_sema
        = exclusive_decrement s.llwu_inhibit_stop_sema := by rw [h1]
    rw [if_neg h0] at ha
    simp only [if_true] at ha
    rw [hstop]
    unfold exclusive_decrement
    split <;> omega
  · have ha := activeLines_store n u 1 s (rx_irq_handler m u r s).1 hu (by rw [h1])
    have hstop : (rx_irq_handler m u r s).1.llwu_inhibit_stop_sema
        = exclusive_increment s.llwu_inhibit_stop_sema := by rw [h1]
    rw [if_pos h0] at ha
    simp only [one_ne_zero, if_false] at ha
    rw [hstop]
    unfold exclusive_increment
    omega
  · have ha := activeLines_store n u 1 s (rx_irq_handler m u r s).1 hu
      (by rw [h1, ← store_store s.receiving u 0 1])
    have hstop : (rx_irq_handler m u r s).1.llwu_inhibit_stop_sema
        = exclusive_increment (exclusive_decrement s.llwu_inhibit_stop_sema) := by rw [h1]
    rw [if_neg h0] at ha
    simp only [one_ne_zero, if_false] at ha
    rw [hstop]
    unfold exclusive_increment exclusive_decrement
    split <;> omega

theorem rx_irq_handler_counter_exact (m : UartMasks) (u n b : Nat) (r : RxIrqReads)
    (s : Driver) (hu : u < n) (hb : b + n < 4294967296)
    (hv : s.llwu_inhibit_stop_sema = b + activeLines n s) :
    (rx_irq_handler m u r s).1.llwu_inhibit_stop_sema
        = b + activeLines n (rx_irq_handler m u r s).1 ∧
    staysAbove b s.llwu_inhibit_stop_sema (rx_irq_handler m u r s).2 := by
  rw [staysAbove_stopOps]
  have hle := activeLines_le n s
  have hle2 := activeLines_le n (rx_irq_handler m u r s).1
  rcases rx_irq_handler_summary m u r s with ⟨h1, h2⟩ | ⟨h0, h1, h2⟩ | ⟨h0, h1, h2⟩ | ⟨h0, h1, h2⟩
  · rw [h2, h1]
    exact ⟨hv, by simp only [staysAbove]; omega⟩
  · have ha := activeLines_store n u 0 s (rx_irq_handler m u r s).1 hu (by rw [h1])
    have hstop : (rx_irq_handler m u r s).1.llwu_inhibit_stop_sema
        = exclusive_decrement s.llwu_inhibit_stop_sema := by rw [h1]
    rw [if_neg h0] at ha
    simp only [if_true] at ha
    rw [h2, hstop]
    simp only [staysAbove, stop_step]
    unfold exclusive_decrement
    split <;> omega
  · have ha := activeLines_store n u 1 s (rx_irq_handler m u r s).1 hu (by rw [h1])
    have hstop : (rx_irq_handler m u r s).1.llwu_inhibit_stop_sema
        = exclusive_increment s.llwu_inhibit_stop_sema := by rw [h1]
    rw [if_pos h0] at ha
    simp only [one_ne_zero, if_false] at ha
    rw [h2, hstop]
    simp only [staysAbove, stop_step]
    unfold exclusive_increment
    omega
  · have ha := activeLines_store n u 1 s (rx_irq_handler m u r s).1 hu
      (by rw [h1, ← store_store s.receiving u 0 1])
    have hstop : (rx_irq_handler m u r s).1.llwu_inhibit_stop_sema
        = exclusive_increment (exclusive_decrement s.llwu_inhibit_stop_sema) := by rw [h1]
    rw [if_neg h0] at ha
    simp only [one_ne_zero, if_false] at ha
    have hpos := activeLines_store n u 0 s { s with receiving := store s.receiving u 0 } hu rfl
    rw [if_neg h0] at hpos
    simp only [if_true] at hpos
    have hz : s.llwu_inhibit_stop_sema ≠ 0 := by omega
    rw [h2, hstop]
    simp only [staysAbove, stop_step, exclusive_increment, exclusive_decrement, if_neg hz]
    omega

/-! ## Sequences of entries -/

theorem rx_run_nil (m : UartMasks) (s : Driver) : rx_run m [] s = (s, []) := rfl

theorem rx_run_cons (m : UartMasks) (e : RxEntry) (es : List RxEntry) (s : Driver) :
    rx_run m (e :: es) s =
      ((rx_run m es (rx_irq_handler m e.uart_num e.reads s).1).1,
        (rx_irq_handler m e.uart_num e.reads s).2
          ++ (rx_run m es (rx_irq_handler m e.uart_num e.reads s).1).2) := rfl

theorem rx_run_pairing (m : UartMasks) (es : List RxEntry) (s : Driver)
    (hs : ∀ l, s.receiving l ≤ 1) (l : Nat) :
    (rx_run m es s).1.receiving l ≤ 1 ∧
    stopIncs l (rx_run m es s).2 + s.receiving l
      = stopDecs l (rx_run m es s).2 + (rx_run m es s).1.receiving l := by
  induction es generalizing s with
  | nil =>
    rw [rx_run_nil]
    exact ⟨hs l, by simp [stopIncs, stopDecs]⟩
  | cons e es ih =>
    rw [rx_run_cons]
    have h1 := rx_irq_handler_pairing m e.uart_num e.reads s hs
    have h2 := ih (rx_irq_handler m e.uart_num e.reads s).1 (fun j => (h1 j).1)
    have h3 := (h1 l).2
    refine ⟨h2.1, ?_⟩
    simp only [stopIncs_append, stopDecs_append]
    omega

theorem rx_run_replay (m : UartMasks) (es : List RxEntry) (s : Driver) :
    (rx_run m es s).1.llwu_inhibit_stop_sema
      = replay_stop s.llwu_inhibit_stop_sema (rx_run m es s).2 := by
  induction es generalizing s with
  | nil => rfl
  | cons e es ih =>
    rw [rx_run_cons]
    simp only [replay_stop_append]
    rw [← rx_irq_handler_replay, ← ih]

theorem rx_run_counter_mod (m : UartMasks) (n : Nat) (es : List RxEntry) (s : Driver)
    (hlines : ∀ e ∈ es, e.uart_num < n) (hv : s.llwu_inhibit_stop_sema < 4294967296) :
    (rx_run m es s).1.llwu_inhibit_stop_sema < 4294967296 ∧
    ((rx_run m es s).1.llwu_inhibit_stop_sema + activeLines n s) % 4294967296
      = (s.llwu_inhibit_stop_sema + activeLines n (rx_run m es s).1) % 4294967296 := by
  induction es generalizing s with
  | nil =>
    rw [rx_run_nil]
    exact ⟨hv, rfl⟩
  | cons e es ih =>
    rw [rx_run_cons]
    have h1 := rx_irq_handler_counter_mod m e.uart_num n e.reads s
      (hlines e (List.mem_cons_self e es)) hv
    have h2 := ih (rx_irq_handler m e.uart_num e.reads s).1
      (fun x hx => hlines x (List.mem_cons_of_mem e hx)) h1.1
    refine ⟨h2.1, ?_⟩
    have h3 := h1.2
    have h4 := h2.2
    simp only at h3 h4 ⊢
    omega

theorem rx_run_counter_exact (m : UartMasks) (n b : Nat) (es : List RxEntry) (s : Driver)
    (hlines : ∀ e ∈ es, e.uart_num < n) (hb : b + n < 4294967296)
    (hv : s.llwu_inhibit_stop_sema = b + activeLines n s) :
    (rx_run m es s).1.llwu_inhibit_stop_sema = b + activeLines n (rx_run m es s).1 ∧
    staysAbove b s.llwu_inhibit_stop_sema (rx_run m es s).2 := by
  induction es generalizing s with
  | nil =>
    rw [rx_run_nil]
    exact ⟨hv, by simp only [staysAbove]; omega⟩
  | cons e es ih =>
    rw [rx_run_cons]
    have h1 := rx_irq_handler_counter_exact m e.uart_num n b e.reads s
      (hlines e (List.mem_cons_self e es)) hb hv
    have h2 := ih (rx_irq_handler m e.uart_num e.reads s).1
      (fun x hx => hlines x (List.mem_cons_of_mem e hx)) h1.1
    refine ⟨h2.1, ?_⟩
    rw [staysAbove_append, ← rx_irq_handler_replay]
    exact ⟨h1.2, h2.2⟩

theorem activeLines_zero (n : Nat) (s : Driver) (h : ∀ l, s.receiving l = 0) :
    activeLines n s = 0 := by
  unfold activeLines
  rw [List.countP_eq_zero]
  intro l _
  simp [h l]

/-! ## C1: pairing of STOP inhibits with the activity latch -/

/-- C1 (amended): starting with every latch at 0, after any finite sequence of
`rx_irq_handler` entries on lines below `n`, with arbitrary register values, every line has
issued as many STOP increments as STOP decrements plus its latch value, and the latch is 0
or 1; the STOP counter is the counter obtained by replaying the trace, and it equals the
initial value plus the number of set latches modulo 2 ^ 32. When the initial value plus
`n` is below 2 ^ 32 the counter is exactly the initial value plus the number of set
latches, and after every initial segment of the trace it is at least the initial value. -/
theorem C1_rx_stop_pairing (m : UartMasks) (n : Nat) (es : List RxEntry) (s0 : Driver)
    (hlatch : ∀ l, s0.receiving l = 0)
    (hv : s0.llwu_inhibit_stop_sema < 4294967296)
    (hlines : ∀ e ∈ es, e.uart_num < n) :
    (∀ l, (rx_run m es s0).1.receiving l ≤ 1 ∧
      stopIncs l (rx_run m es s0).2
        = stopDecs l (rx_run m es s0).2 + (rx_run m es s0).1.receiving l) ∧
    (rx_run m es s0).1.llwu_inhibit_stop_sema
      = replay_stop s0.llwu_inhibit_stop_sema (rx_run m es s0).2 ∧
    (rx_run m es s0).1.llwu_inhibit_stop_sema
      = (s0.llwu_inhibit_stop_sema + activeLines n (rx_run m es s0).1) % 4294967296 ∧
    (s0.llwu_inhibit_stop_sema + n < 4294967296 →
      (rx_run m es s0).1.llwu_inhibit_stop_sema
        = s0.llwu_inhibit_stop_sema + activeLines n (rx_run m es s0).1 ∧
      ∀ k, s0.llwu_inhibit_stop_sema
        ≤ replay_stop s0.llwu_inhibit_stop_sema ((rx_run m es s0).2.take k)) := by
  have hz := activeLines_zero n s0 hlatch
  refine ⟨?_, rx_run_replay m es s0, ?_, ?_⟩
  · intro l
    have h := rx_run_pairing m es s0 (fun j => by rw [hlatch j]; exact Nat.zero_le 1) l
    rw [hlatch l] at h
    exact ⟨h.1, by omega⟩
  · have h := rx_run_counter_mod m n es s0 hlines hv
    rw [hz] at h
    omega
  · intro hb
    have h := rx_run_counter_exact m n s0.llwu_inhibit_stop_sema es s0 hlines hb
      (by rw [hz]; rfl)
    exact ⟨h.1, fun k => staysAbove_take _ _ _ h.2 k⟩

/-- C1, concrete run: an edge on line 0, then a byte together with an edge on line 1, from
a STOP counter of 7, leaves the counter at 7 plus the two set latches. -/
theorem C1_rx_stop_pairing_witness :
    (∀ l, (bootState 7).receiving l = 0) ∧
    (bootState 7).llwu_inhibit_stop_sema < 4294967296 ∧
    (∀ e ∈ [entry 0 0 0 0 64, entry 1 32 88 1 64], e.uart_num < 6) ∧
    (rx_run k60Masks [entry 0 0 0 0 64, entry 1 32 88 1 64] (bootState 7)).1.llwu_inhibit_stop_sema
      = (7 + activeLines 6
          (rx_run k60Masks [entry 0 0 0 0 64, entry 1 32 88 1 64] (bootState 7)).1)
        % 4294967296 ∧
    (rx_run k60Masks [entry 0 0 0 0 64, entry 1 32 88 1 64] (bootState 7)).1.llwu_inhibit_stop_sema
      = (bootState 7).llwu_inhibit_stop_sema + activeLines 6
          (rx_run k60Masks [entry 0 0 0 0 64, entry 1 32 88 1 64] (bootState 7)).1 :=
  ⟨fun _ => rfl, by decide, by decide,
    (C1_rx_stop_pairing k60Masks 6 [entry 0 0 0 0 64, entry 1 32 88 1 64] (bootState 7)
      (fun _ => rfl) (by decide) (by decide)).2.2.1,
    ((C1_rx_stop_pairing k60Masks 6 [entry 0 0 0 0 64, entry 1 32 88 1 64] (bootState 7)
      (fun _ => rfl) (by decide) (by decide)).2.2.2 (by decide)).1⟩

/-- C1 as stated fails at the top of the counter range: from a STOP counter of 2 ^ 32 - 1
and all latches 0, one entry on line 0 with RXEDGIF set sets one latch and leaves the
counter at 0, which is neither the initial value plus one nor at least the initial value. -/
theorem C1_counterexample :
    (bootState 4294967295).receiving 0 = 0 ∧
    activeLines 6 (rx_run k60Masks [entry 0 0 0 0 64] (bootState 4294967295)).1 = 1 ∧
    (rx_run k60Masks [entry 0 0 0 0 64] (bootState 4294967295)).1.llwu_inhibit_stop_sema = 0 ∧
    (rx_run k60Masks [entry 0 0 0 0 64] (bootState 4294967295)).1.llwu_inhibit_stop_sema
      ≠ (bootState 4294967295).llwu_inhibit_stop_sema
        + activeLines 6 (rx_run k60Masks [entry 0 0 0 0 64] (bootState 4294967295)).1 ∧
    (rx_run k60Masks [entry 0 0 0 0 64] (bootState 4294967295)).1.llwu_inhibit_stop_sema
      < (bootState 4294967295).llwu_inhibit_stop_sema := by
  decide

/-! ## The handler by flag values -/

/-- Latch set and RAF set: the entry changes nothing and issues no counter operation. -/
theorem rx_irq_handler_busy (m : UartMasks) (u : Nat) (r : RxIrqReads) (s : Driver)
    (hl : s.receiving u ≠ 0) (ha : r.S2_idle &&& m.UART_S2_RAF_MASK ≠ 0) :
    (rx_irq_handler m u r s).1 = s ∧ stopOps (rx_irq_handler m u r s).2 = [] := by
  unfold rx_irq_handler rx_data_ready rx_idle_check rx_edge_check
  by_cases h1 : r.S1 &&& m.UART_S1_RDRF_MASK ≠ 0 <;>
  by_cases h3 : r.S2_edge &&& m.UART_S2_RXEDGIF_MASK ≠ 0 <;>
  cases h5 : s.rx_callback u <;>
  simp [h1, ha, h3, hl, h5, stopOps]

/-- Latch clear and RXEDGIF clear: the entry changes nothing and issues no counter
operation. -/
theorem rx_irq_handler_quiet (m : UartMasks) (u : Nat) (r : RxIrqReads) (s : Driver)
    (hl : s.receiving u = 0) (he : r.S2_edge &&& m.UART_S2_RXEDGIF_MASK = 0) :
    (rx_irq_handler m u r s).1 = s ∧ stopOps (rx_irq_handler m u r s).2 = [] := by
  unfold rx_irq_handler rx_data_ready rx_idle_check rx_edge_check
  by_cases h1 : r.S1 &&& m.UART_S1_RDRF_MASK ≠ 0 <;>
  by_cases h2 : r.S2_idle &&& m.UART_S2_RAF_MASK = 0 <;>
  cases h5 : s.rx_callback u <;>
  simp [h1, h2, he, hl, h5, stopOps]

/-- Latch clear and RXEDGIF set: one increment, latch set. -/
theorem rx_irq_handler_edge (m : UartMasks) (u : Nat) (r : RxIrqReads) (s : Driver)
    (hl : s.receiving u = 0) (he : r.S2_edge &&& m.UART_S2_RXEDGIF_MASK ≠ 0) :
    (rx_irq_handler m u r s).1 =
      { s with
        receiving := store s.receiving u 1
        llwu_inhibit_stop_sema := exclusive_increment s.llwu_inhibit_stop_sema } ∧
    stopOps (rx_irq_handler m u r s).2 = [Event.inhibit_stop u] := by
  unfold rx_irq_handler rx_data_ready rx_idle_check rx_edge_check
  by_cases h1 : r.S1 &&& m.UART_S1_RDRF_MASK ≠ 0 <;>
  by_cases h2 : r.S2_idle &&& m.UART_S2_RAF_MASK = 0 <;>
  cases h5 : s.rx_callback u <;>
  simp [h1, h2, he, hl, h5, stopOps]

/-- Latch set, RAF clear, RXEDGIF clear: one decrement, latch cleared. -/
theorem rx_irq_handler_release (m : UartMasks) (u : Nat) (r : RxIrqReads) (s : Driver)
    (hl : s.receiving u ≠ 0) (ha : r.S2_idle &&& m.UART_S2_RAF_MASK = 0)
    (he : r.S2_edge &&& m.UART_S2_RXEDGIF_MASK = 0) :
    (rx_irq_handler m u r s).1 =
      { s with
        receiving := store s.receiving u 0
        llwu_inhibit_stop_sema := exclusive_decrement s.llwu_inhibit_stop_sema } ∧
    stopOps (rx_irq_handler m u r s).2 = [Event.uninhibit_stop u] := by
  unfold rx_irq_handler rx_data_ready rx_idle_check rx_edge_check
  by_cases h1 : r.S1 &&& m.UART_S1_RDRF_MASK ≠ 0 <;>
  cases h5 : s.rx_callback u <;>
  simp [h1, ha, he, hl, h5, stopOps]

/-- Latch set, RAF clear, RXEDGIF set: one decrement, then one increment, latch set again. -/
theorem rx_irq_handler_rearm (m : UartMasks) (u : Nat) (r : RxIrqReads) (s : Driver)
    (hl : s.receiving u ≠ 0) (ha : r.S2_idle &&& m.UART_S2_RAF_MASK = 0)
    (he : r.S2_edge &&& m.UART_S2_RXEDGIF_MASK ≠ 0) :
    (rx_irq_handler m u r s).1 =
      { s with
        receiving := store (store s.receiving u 0) u 1
        llwu_inhibit_stop_sema :=
          exclusive_increment (exclusive_decrement s.llwu_inhibit_stop_sema) } ∧
    stopOps (rx_irq_handler m u r s).2 = [Event.uninhibit_stop u, Event.inhibit_stop u] := by
  unfold rx_irq_handler rx_data_ready rx_idle_check rx_edge_check
  by_cases h1 : r.S1 &&& m.UART_S1_RDRF_MASK ≠ 0 <;>
  cases h5 : s.rx_callback u <;>
  simp [h1, ha, he, hl, h5, stopOps, store]

theorem exclusive_decrement_increment (v : Nat) (hv : v < 4294967296) :
    exclusive_decrement (exclusive_increment v) = v := by
  unfold exclusive_decrement exclusive_increment
  split <;> omega

theorem exclusive_increment_decrement (v : Nat) (hv : v < 4294967296) :
    exclusive_increment (exclusive_decrement v) = v := by
  unfold exclusive_decrement exclusive_increment
  split <;> omega

/-! ## C2: edge, data, idle -/

/-- C2: on a line whose latch is 0 and whose callback slot holds `fn`, for every byte `X`,
the three entries (1) RXEDGIF set, RDRF clear, (2) RDRF set with data `X`, RXEDGIF clear,
RAF set, (3) RDRF, RXEDGIF and RAF clear produce exactly the counter operations and
callback invocations STOP increment, callback(X), STOP decrement, in that order, and leave
the latch at 0 and the STOP counter (a 32-bit value) at its initial value. -/
theorem C2_edge_data_idle (m : UartMasks) (u fn X : Nat) (r1 r2 r3 : RxIrqReads) (s : Driver)
    (hlatch : s.receiving u = 0) (hcb : s.rx_callback u = some fn) (hX : X < 256)
    (hv : s.llwu_inhibit_stop_sema < 4294967296)
    (h1e : r1.S2_edge &&& m.UART_S2_RXEDGIF_MASK ≠ 0)
    (h1d : r1.S1 &&& m.UART_S1_RDRF_MASK = 0)
    (h2d : r2.S1 &&& m.UART_S1_RDRF_MASK ≠ 0) (h2x : r2.D = X)
    (h2e : r2.S2_edge &&& m.UART_S2_RXEDGIF_MASK = 0)
    (h2a : r2.S2_idle &&& m.UART_S2_RAF_MASK ≠ 0)
    (h3d : r3.S1 &&& m.UART_S1_RDRF_MASK = 0)
    (h3e : r3.S2_edge &&& m.UART_S2_RXEDGIF_MASK = 0)
    (h3a : r3.S2_idle &&& m.UART_S2_RAF_MASK = 0) :
    visible (rx_run m [RxEntry.mk u r1, RxEntry.mk u r2, RxEntry.mk u r3] s).2
      = [Event.inhibit_stop u, Event.callback u fn X, Event.uninhibit_stop u] ∧
    (rx_run m [RxEntry.mk u r1, RxEntry.mk u r2, RxEntry.mk u r3] s).1.receiving u = 0 ∧
    (rx_run m [RxEntry.mk u r1, RxEntry.mk u r2, RxEntry.mk u r3] s).1.llwu_inhibit_stop_sema
      = s.llwu_inhibit_stop_sema := by
  have hmod : X % 256 = X := Nat.mod_eq_of_lt hX
  have hid := exclusive_decrement_increment s.llwu_inhibit_stop_sema hv
  simp [rx_run, rx_irq_handler, rx_data_ready, rx_idle_check, rx_edge_check, visible, store,
    hlatch, hcb, h1e, h1d, h2d, h2x, h2e, h2a, h3d, h3e, h3a, hmod, hid]

/-- C2, concrete run: line 0 with callback 7 registered and the byte 88 ('X'). -/
theorem C2_edge_data_idle_witness :
    visible (rx_run k60Masks [entry 0 0 0 0 64, entry 0 32 88 1 0, entry 0 0 0 0 0]
      (uart_set_rx_callback 0 (some 7) (bootState 5))).2
      = [Event.inhibit_stop 0, Event.callback 0 7 88, Event.uninhibit_stop 0] ∧
    (rx_run k60Masks [entry 0 0 0 0 64, entry 0 32 88 1 0, entry 0 0 0 0 0]
      (uart_set_rx_callback 0 (some 7) (bootState 5))).1.receiving 0 = 0 ∧
    (rx_run k60Masks [entry 0 0 0 0 64, entry 0 32 88 1 0, entry 0 0 0 0 0]
      (uart_set_rx_callback 0 (some 7) (bootState 5))).1.llwu_inhibit_stop_sema = 5 :=
  C2_edge_data_idle k60Masks 0 7 88 (rxReads 0 0 0 64) (rxReads 32 88 1 0) (rxReads 0 0 0 0)
    (uart_set_rx_callback 0 (some 7) (bootState 5))
    rfl rfl (by decide) (by decide) (by decide) (by decide) (by decide) rfl (by decide)
    (by decide) (by decide) (by decide) (by decide)

/-! ## C3, C4, C5: the activity window -/

theorem rx_run_append (m : UartMasks) (a b : List RxEntry) (s : Driver) :
    rx_run m (a ++ b) s =
      ((rx_run m b (rx_run m a s).1).1, (rx_run m a s).2 ++ (rx_run m b (rx_run m a s).1).2) := by
  induction a generalizing s with
  | nil => rfl
  | cons e es ih =>
    rw [List.cons_append, rx_run_cons, rx_run_cons, ih]
    simp only [List.append_assoc]

/-- Entries with RAF set on a line whose latch is set change nothing. -/
theorem rx_run_busy (m : UartMasks) (u : Nat) (rs : List RxIrqReads) (s : Driver)
    (hl : s.receiving u ≠ 0) (ha : ∀ r ∈ rs, r.S2_idle &&& m.UART_S2_RAF_MASK ≠ 0) :
    (rx_run m (rs.map (RxEntry.mk u)) s).1 = s ∧
    stopOps (rx_run m (rs.map (RxEntry.mk u)) s).2 = [] := by
  induction rs with
  | nil => exact ⟨rfl, rfl⟩
  | cons r rs ih =>
    have h1 := rx_irq_handler_busy m u r s hl (ha r (List.mem_cons_self r rs))
    have h2 := ih (fun x hx => ha x (List.mem_cons_of_mem r hx))
    rw [List.map_cons, rx_run_cons, stopOps_append]
    simp only [h1.1, h1.2, h2.1, h2.2]
    exact ⟨trivial, rfl⟩

/-- C3: a sequence of entries on one line that starts with the latch at 0, whose first entry
has RXEDGIF set, whose later entries have RXEDGIF clear, and that ends at the first later
entry with RAF clear, issues exactly one STOP increment followed by exactly one STOP
decrement, whatever RDRF is in any entry, and ends with the latch at 0. -/
theorem C3_round_trip (m : UartMasks) (u : Nat) (first : RxIrqReads) (mids : List RxIrqReads)
    (last : RxIrqReads) (s : Driver)
    (hlatch : s.receiving u = 0)
    (hfirst : first.S2_edge &&& m.UART_S2_RXEDGIF_MASK ≠ 0)
    (hmids : ∀ r ∈ mids, r.S2_edge &&& m.UART_S2_RXEDGIF_MASK = 0 ∧
      r.S2_idle &&& m.UART_S2_RAF_MASK ≠ 0)
    (hlast : last.S2_edge &&& m.UART_S2_RXEDGIF_MASK = 0 ∧
      last.S2_idle &&& m.UART_S2_RAF_MASK = 0) :
    stopOps (rx_run m ((first :: mids ++ [last]).map (RxEntry.mk u)) s).2
      = [Event.inhibit_stop u, Event.uninhibit_stop u] ∧
    stopIncs u (rx_run m ((first :: mids ++ [last]).map (RxEntry.mk u)) s).2 = 1 ∧
    stopDecs u (rx_run m ((first :: mids ++ [last]).map (RxEntry.mk u)) s).2 = 1 ∧
    (rx_run m ((first :: mids ++ [last]).map (RxEntry.mk u)) s).1.receiving u = 0 := by
  have h1 := rx_irq_handler_edge m u first s hlatch hfirst
  have hl1 : (rx_irq_handler m u first s).1.receiving u ≠ 0 := by
    rw [h1.1]; simp [store]
  have h2 := rx_run_busy m u mids (rx_irq_handler m u first s).1 hl1
    (fun r hr => (hmids r hr).2)
  have h3 := rx_irq_handler_release m u last (rx_irq_handler m u first s).1 hl1
    hlast.2 hlast.1
  have hops : stopOps (rx_run m ((first :: mids ++ [last]).map (RxEntry.mk u)) s).2
      = [Event.inhibit_stop u, Event.uninhibit_stop u] := by
    rw [List.cons_append, List.map_cons, rx_run_cons, List.map_append, rx_run_append]
    simp only [stopOps_append, h1.2, h2.1, h2.2, List.map_cons, List.map_nil, rx_run_cons,
      rx_run_nil, h3.2, List.append_nil, List.nil_append, List.singleton_append]
  refine ⟨hops, ?_, ?_, ?_⟩
  · rw [stopIncs_stopOps, hops]; simp [List.count_cons]
  · rw [stopDecs_stopOps, hops]; simp [List.count_cons]
  · rw [List.cons_append, List.map_cons, rx_run_cons, List.map_append, rx_run_append]
    simp only [h2.1, List.map_cons, List.map_nil, rx_run_cons, rx_run_nil, h3.1, store,
      if_true]

/-- C3, concrete run on line 2: edge, two busy entries (one carrying a byte), idle. -/
theorem C3_round_trip_witness :
    stopOps (rx_run k60Masks
        ((rxReads 0 0 1 64
          :: [rxReads 32 65 1 0, rxReads 0 0 1 0] ++ [rxReads 32 66 0 0]).map (RxEntry.mk 2))
        (bootState 3)).2
      = [Event.inhibit_stop 2, Event.uninhibit_stop 2] ∧
    stopIncs 2 (rx_run k60Masks
        ((rxReads 0 0 1 64
          :: [rxReads 32 65 1 0, rxReads 0 0 1 0] ++ [rxReads 32 66 0 0]).map (RxEntry.mk 2))
        (bootState 3)).2 = 1 ∧
    stopDecs 2 (rx_run k60Masks
        ((rxReads 0 0 1 64
          :: [rxReads 32 65 1 0, rxReads 0 0 1 0] ++ [rxReads 32 66 0 0]).map (RxEntry.mk 2))
        (bootState 3)).2 = 1 ∧
    (rx_run k60Masks
        ((rxReads 0 0 1 64
          :: [rxReads 32 65 1 0, rxReads 0 0 1 0] ++ [rxReads 32 66 0 0]).map (RxEntry.mk 2))
        (bootState 3)).1.receiving 2 = 0 :=
  C3_round_trip k60Masks 2 (rxReads 0 0 1 64) [rxReads 32 65 1 0, rxReads 0 0 1 0]
    (rxReads 32 66 0 0) (bootState 3) rfl (by decide) (by decide) (by decide)

/-- Entries with RXEDGIF set on a line whose latch is 1 leave the latch at 1, issue as many
STOP increments as STOP decrements and leave a 32-bit STOP counter unchanged. -/
theorem rx_run_edges (m : UartMasks) (u : Nat) (rs : List RxIrqReads) :
    ∀ s : Driver, s.receiving u = 1 →
      (∀ r ∈ rs, r.S2_edge &&& m.UART_S2_RXEDGIF_MASK ≠ 0) →
      (rx_run m (rs.map (RxEntry.mk u)) s).1.receiving u = 1 ∧
      stopIncs u (rx_run m (rs.map (RxEntry.mk u)) s).2
        = stopDecs u (rx_run m (rs.map (RxEntry.mk u)) s).2 ∧
      (s.llwu_inhibit_stop_sema < 4294967296 →
        (rx_run m (rs.map (RxEntry.mk u)) s).1.llwu_inhibit_stop_sema
          = s.llwu_inhibit_stop_sema) := by
  induction rs with
  | nil => intro s hl _; exact ⟨hl, rfl, fun _ => rfl⟩
  | cons r rs ih =>
    intro s hl he
    have hne : s.receiving u ≠ 0 := by rw [hl]; exact one_ne_zero
    have her := he r (List.mem_cons_self r rs)
    have het : ∀ x ∈ rs, x.S2_edge &&& m.UART_S2_RXEDGIF_MASK ≠ 0 :=
      fun x hx => he x (List.mem_cons_of_mem r hx)
    rw [List.map_cons, rx_run_cons, stopIncs_append, stopDecs_append]
    by_cases ha : r.S2_idle &&& m.UART_S2_RAF_MASK = 0
    · have h1 := rx_irq_handler_rearm m u r s hne ha her
      have hl1 : (rx_irq_handler m u r s).1.receiving u = 1 := by
        rw [h1.1]; simp [store]
      have hs1 : (rx_irq_handler m u r s).1.llwu_inhibit_stop_sema
          = exclusive_increment (exclusive_decrement s.llwu_inhibit_stop_sema) := by
        rw [h1.1]
      have h2 := ih (rx_irq_handler m u r s).1 hl1 het
      refine ⟨h2.1, ?_, ?_⟩
      · rw [stopIncs_stopOps u (rx_irq_handler m u r s).2,
          stopDecs_stopOps u (rx_irq_handler m u r s).2, h1.2, h2.2.1]
        simp [List.count_cons]
      · intro hv
        have h3 := exclusive_increment_decrement s.llwu_inhibit_stop_sema hv
        rw [h3] at hs1
        rw [h2.2.2 (by rw [hs1]; exact hv), hs1]
    · have h1 := rx_irq_handler_busy m u r s hne ha
      have h2 := ih s hl het
      rw [h1.1]
      refine ⟨h2.1, ?_, h2.2.2⟩
      rw [stopIncs_stopOps u (rx_irq_handler m u r s).2,
        stopDecs_stopOps u (rx_irq_handler m u r s).2, h1.2, h2.2.1]
      rfl

/-- C4: on a line whose latch is 1, an entry with RAF set issues no STOP increment and leaves
the latch at 1, whatever RXEDGIF and RDRF are; and any number of such entries leaves the
state as it was (latch 1, STOP counter unchanged) with no STOP increment and no STOP
decrement issued, so the line keeps contributing exactly its one increment. Any number of
entries with RXEDGIF set, whatever RAF is, also leaves the latch at 1 with as many STOP
increments as STOP decrements issued and a 32-bit STOP counter unchanged. -/
theorem C4_busy_no_inhibit (m : UartMasks) (u : Nat) (rs : List RxIrqReads) (s : Driver)
    (hlatch : s.receiving u = 1)
    (hraf : ∀ r ∈ rs, r.S2_idle &&& m.UART_S2_RAF_MASK ≠ 0) :
    (∀ r : RxIrqReads, r.S2_idle &&& m.UART_S2_RAF_MASK ≠ 0 →
      (rx_irq_handler m u r s).1.receiving u = 1 ∧
      ∀ l, stopIncs l (rx_irq_handler m u r s).2 = 0) ∧
    (rx_run m (rs.map (RxEntry.mk u)) s).1.receiving u = 1 ∧
    (rx_run m (rs.map (RxEntry.mk u)) s).1.llwu_inhibit_stop_sema = s.llwu_inhibit_stop_sema ∧
    (∀ l, stopIncs l (rx_run m (rs.map (RxEntry.mk u)) s).2 = 0) ∧
    (∀ l, stopDecs l (rx_run m (rs.map (RxEntry.mk u)) s).2 = 0) ∧
    (∀ qs : List RxIrqReads, (∀ r ∈ qs, r.S2_edge &&& m.UART_S2_RXEDGIF_MASK ≠ 0) →
      (rx_run m (qs.map (RxEntry.mk u)) s).1.receiving u = 1 ∧
      stopIncs u (rx_run m (qs.map (RxEntry.mk u)) s).2
        = stopDecs u (rx_run m (qs.map (RxEntry.mk u)) s).2 ∧
      (s.llwu_inhibit_stop_sema < 4294967296 →
        (rx_run m (qs.map (RxEntry.mk u)) s).1.llwu_inhibit_stop_sema
          = s.llwu_inhibit_stop_sema)) := by
  have hl : s.receiving u ≠ 0 := by rw [hlatch]; exact one_ne_zero
  have h := rx_run_busy m u rs s hl hraf
  refine ⟨?_, ?_, ?_, ?_, ?_, fun qs hqs => rx_run_edges m u qs s hlatch hqs⟩
  · intro r hr
    have h1 := rx_irq_handler_busy m u r s hl hr
    refine ⟨by rw [h1.1]; exact hlatch, fun l => ?_⟩
    rw [stopIncs_stopOps, h1.2]
    rfl
  · rw [h.1]; exact hlatch
  · rw [h.1]
  · intro l
    rw [stopIncs_stopOps, h.2]
    rfl
  · intro l
    rw [stopDecs_stopOps, h.2]
    rfl

/-- C4, concrete run on line 1: three entries with RAF set, two of them with RXEDGIF set. -/
theorem C4_busy_no_inhibit_witness :
    (rx_run k60Masks
      ([rxReads 0 0 1 64, rxReads 32 9 1 0, rxReads 32 9 1 64].map (RxEntry.mk 1))
      { bootState 4 with receiving := store (fun _ => 0) 1 1 }).1.receiving 1 = 1 ∧
    (rx_run k60Masks
      ([rxReads 0 0 1 64, rxReads 32 9 1 0, rxReads 32 9 1 64].map (RxEntry.mk 1))
      { bootState 4 with receiving := store (fun _ => 0) 1 1 }).1.llwu_inhibit_stop_sema = 4 :=
  ⟨(C4_busy_no_inhibit k60Masks 1 [rxReads 0 0 1 64, rxReads 32 9 1 0, rxReads 32 9 1 64]
      { bootState 4 with receiving := store (fun _ => 0) 1 1 } rfl (by decide)).2.1,
    (C4_busy_no_inhibit k60Masks 1 [rxReads 0 0 1 64, rxReads 32 9 1 0, rxReads 32 9 1 64]
      { bootState 4 with receiving := store (fun _ => 0) 1 1 } rfl (by decide)).2.2.1⟩

/-- C5: on a line whose latch is 1, an entry with RAF clear issues exactly one STOP
decrement and clears the latch, whatever RDRF is; when RXEDGIF is set in the same entry the
decrement is followed by exactly one STOP increment and the latch is set again. An entry
on a line whose latch is 0, or with RAF set, issues no STOP decrement. -/
theorem C5_idle_release (m : UartMasks) (u : Nat) (r : RxIrqReads) (s : Driver) :
    (s.receiving u = 1 → r.S2_idle &&& m.UART_S2_RAF_MASK = 0 →
      r.S2_edge &&& m.UART_S2_RXEDGIF_MASK = 0 →
        stopOps (rx_irq_handler m u r s).2 = [Event.uninhibit_stop u] ∧
        (rx_irq_handler m u r s).1.receiving u = 0 ∧
        (rx_irq_handler m u r s).1.llwu_inhibit_stop_sema
          = exclusive_decrement s.llwu_inhibit_stop_sema) ∧
    (s.receiving u = 1 → r.S2_idle &&& m.UART_S2_RAF_MASK = 0 →
      r.S2_edge &&& m.UART_S2_RXEDGIF_MASK ≠ 0 →
        stopOps (rx_irq_handler m u r s).2
          = [Event.uninhibit_stop u, Event.inhibit_stop u] ∧
        (rx_irq_handler m u r s).1.receiving u = 1 ∧
        (rx_irq_handler m u r s).1.llwu_inhibit_stop_sema
          = exclusive_increment (exclusive_decrement s.llwu_inhibit_stop_sema)) ∧
    (s.receiving u = 0 ∨ r.S2_idle &&& m.UART_S2_RAF_MASK ≠ 0 →
      ∀ l, stopDecs l (rx_irq_handler m u r s).2 = 0) := by
  refine ⟨?_, ?_, ?_⟩
  · intro hl ha he
    have h := rx_irq_handler_release m u r s (by rw [hl]; exact one_ne_zero) ha he
    refine ⟨h.2, ?_, ?_⟩
    · rw [h.1]; simp [store]
    · rw [h.1]
  · intro hl ha he
    have h := rx_irq_handler_rearm m u r s (by rw [hl]; exact one_ne_zero) ha he
    refine ⟨h.2, ?_, ?_⟩
    · rw [h.1]; simp [store]
    · rw [h.1]
  · intro h l
    rw [stopDecs_stopOps]
    by_cases hl : s.receiving u = 0
    · by_cases he : r.S2_edge &&& m.UART_S2_RXEDGIF_MASK = 0
      · rw [(rx_irq_handler_quiet m u r s hl he).2]
        rfl
      · rw [(rx_irq_handler_edge m u r s hl he).2]
        simp [List.count_cons]
    · have ha : r.S2_idle &&& m.UART_S2_RAF_MASK ≠ 0 := by
        rcases h with h | h
        · exact absurd h hl
        · exact h
      rw [(rx_irq_handler_busy m u r s hl ha).2]
      rfl

/-- C5, concrete entries on line 0 with the latch set and a STOP counter of 4: idle alone,
idle together with a new edge, and a busy entry. -/
theorem C5_idle_release_witness :
    (stopOps (rx_irq_handler k60Masks 0 (rxReads 0 0 0 0)
        { bootState 4 with receiving := store (fun _ => 0) 0 1 }).2
        = [Event.uninhibit_stop 0] ∧
      (rx_irq_handler k60Masks 0 (rxReads 0 0 0 0)
        { bootState 4 with receiving := store (fun _ => 0) 0 1 }).1.receiving 0 = 0 ∧
      (rx_irq_handler k60Masks 0 (rxReads 0 0 0 0)
        { bootState 4 with receiving := store (fun _ => 0) 0 1 }).1.llwu_inhibit_stop_sema
        = exclusive_decrement 4) ∧
    (stopOps (rx_irq_handler k60Masks 0 (rxReads 0 0 0 64)
        { bootState 4 with receiving := store (fun _ => 0) 0 1 }).2
        = [Event.uninhibit_stop 0, Event.inhibit_stop 0] ∧
      (rx_irq_handler k60Masks 0 (rxReads 0 0 0 64)
        { bootState 4 with receiving := store (fun _ => 0) 0 1 }).1.receiving 0 = 1 ∧
      (rx_irq_handler k60Masks 0 (rxReads 0 0 0 64)
        { bootState 4 with receiving := store (fun _ => 0) 0 1 }).1.llwu_inhibit_stop_sema
        = exclusive_increment (exclusive_decrement 4)) ∧
    (∀ l, stopDecs l (rx_irq_handler k60Masks 0 (rxReads 0 0 1 64)
        { bootState 4 with receiving := store (fun _ => 0) 0 1 }).2 = 0) :=
  ⟨(C5_idle_release k60Masks 0 (rxReads 0 0 0 0)
      { bootState 4 with receiving := store (fun _ => 0) 0 1 }).1 rfl (by decide) (by decide),
    (C5_idle_release k60Masks 0 (rxReads 0 0 0 64)
      { bootState 4 with receiving := store (fun _ => 0) 0 1 }).2.1 rfl (by decide) (by decide),
    (C5_idle_release k60Masks 0 (rxReads 0 0 1 64)
      { bootState 4 with receiving := store (fun _ => 0) 0 1 }).2.2 (Or.inr (by decide))⟩

/-! ## C6, C7: byte delivery -/

/-- C6: in an entry with RDRF set on a line whose callback slot holds `fn`, the handler reads
`S1`, then `D`, each exactly once, and calls `fn` exactly once with the byte read; these are
the first three events of the entry, ahead of the idle check. When in the same entry RAF is
clear and the latch is 1, the callback call comes first and the single STOP decrement
second. In an entry with RDRF clear, `D` is not read and no callback is called. -/
theorem C6_data_before_idle (m : UartMasks) (u fn : Nat) (r : RxIrqReads) (s : Driver) :
    (s.rx_callback u = some fn → r.S1 &&& m.UART_S1_RDRF_MASK ≠ 0 →
      (rx_irq_handler m u r s).2.filter isS1orD
        = [Event.readS1 u, Event.readD u (r.D % 256)] ∧
      (rx_irq_handler m u r s).2.filter isCallback = [Event.callback u fn (r.D % 256)] ∧
      (rx_irq_handler m u r s).2.take 3
        = [Event.readS1 u, Event.readD u (r.D % 256), Event.callback u fn (r.D % 256)] ∧
      (r.S2_idle &&& m.UART_S2_RAF_MASK = 0 → s.receiving u = 1 →
        (visible (rx_irq_handler m u r s).2).take 2
          = [Event.callback u fn (r.D % 256), Event.uninhibit_stop u] ∧
        stopDecs u (rx_irq_handler m u r s).2 = 1)) ∧
    (r.S1 &&& m.UART_S1_RDRF_MASK = 0 →
      (rx_irq_handler m u r s).2.filter isReadD = [] ∧
      (rx_irq_handler m u r s).2.filter isCallback = []) := by
  constructor
  · intro hcb hd
    refine ⟨?_, ?_, ?_, ?_⟩
    · unfold rx_irq_handler rx_data_ready rx_idle_check rx_edge_check
      by_cases h2 : r.S2_idle &&& m.UART_S2_RAF_MASK = 0 <;>
      by_cases h3 : r.S2_edge &&& m.UART_S2_RXEDGIF_MASK ≠ 0 <;>
      by_cases h4 : s.receiving u = 0 <;>
      simp [hd, hcb, h2, h3, h4, isS1orD, store]
    · unfold rx_irq_handler rx_data_ready rx_idle_check rx_edge_check
      by_cases h2 : r.S2_idle &&& m.UART_S2_RAF_MASK = 0 <;>
      by_cases h3 : r.S2_edge &&& m.UART_S2_RXEDGIF_MASK ≠ 0 <;>
      by_cases h4 : s.receiving u = 0 <;>
      simp [hd, hcb, h2, h3, h4, isCallback, store]
    · unfold rx_irq_handler rx_data_ready
      simp [hd, hcb]
    · intro ha hl
      unfold rx_irq_handler rx_data_ready rx_idle_check rx_edge_check stopDecs
      by_cases h3 : r.S2_edge &&& m.UART_S2_RXEDGIF_MASK ≠ 0 <;>
      simp [hd, hcb, ha, hl, h3, visible, store, List.count_cons]
  · intro hd
    constructor
    · unfold rx_irq_handler rx_data_ready rx_idle_check rx_edge_check
      by_cases h2 : r.S2_idle &&& m.UART_S2_RAF_MASK = 0 <;>
      by_cases h3 : r.S2_edge &&& m.UART_S2_RXEDGIF_MASK ≠ 0 <;>
      by_cases h4 : s.receiving u = 0 <;>
      simp [hd, h2, h3, h4, isReadD, store]
    · unfold rx_irq_handler rx_data_ready rx_idle_check rx_edge_check
      by_cases h2 : r.S2_idle &&& m.UART_S2_RAF_MASK = 0 <;>
      by_cases h3 : r.S2_edge &&& m.UART_S2_RXEDGIF_MASK ≠ 0 <;>
      by_cases h4 : s.receiving u = 0 <;>
      simp [hd, h2, h3, h4, isCallback, store]

/-- C6, concrete entries on line 0 with callback 7 and the latch set: a byte arriving with
the idle transition, and an entry without data. -/
theorem C6_data_before_idle_witness :
    ((rx_irq_handler k60Masks 0 (rxReads 32 88 0 0)
        { bootState 4 with
          rx_callback := fun _ => some 7
          receiving := store (fun _ => 0) 0 1 }).2.filter isS1orD
        = [Event.readS1 0, Event.readD 0 (88 % 256)] ∧
      (rx_irq_handler k60Masks 0 (rxReads 32 88 0 0)
        { bootState 4 with
          rx_callback := fun _ => some 7
          receiving := store (fun _ => 0) 0 1 }).2.filter isCallback
        = [Event.callback 0 7 (88 % 256)] ∧
      (rx_irq_handler k60Masks 0 (rxReads 32 88 0 0)
        { bootState 4 with
          rx_callback := fun _ => some 7
          receiving := store (fun _ => 0) 0 1 }).2.take 3
        = [Event.readS1 0, Event.readD 0 (88 % 256), Event.callback 0 7 (88 % 256)] ∧
      (visible (rx_irq_handler k60Masks 0 (rxReads 32 88 0 0)
        { bootState 4 with
          rx_callback := fun _ => some 7
          receiving := store (fun _ => 0) 0 1 }).2).take 2
        = [Event.callback 0 7 (88 % 256), Event.uninhibit_stop 0] ∧
      stopDecs 0 (rx_irq_handler k60Masks 0 (rxReads 32 88 0 0)
        { bootState 4 with
          rx_callback := fun _ => some 7
          receiving := store (fun _ => 0) 0 1 }).2 = 1) ∧
    ((rx_irq_handler k60Masks 0 (rxReads 0 88 0 0)
        { bootState 4 with
          rx_callback := fun _ => some 7
          receiving := store (fun _ => 0) 0 1 }).2.filter isReadD = [] ∧
      (rx_irq_handler k60Masks 0 (rxReads 0 88 0 0)
        { bootState 4 with
          rx_callback := fun _ => some 7
          receiving := store (fun _ => 0) 0 1 }).2.filter isCallback = []) :=
  have h := (C6_data_before_idle k60Masks 0 7 (rxReads 32 88 0 0)
    { bootState 4 with
      rx_callback := fun _ => some 7
      receiving := store (fun _ => 0) 0 1 }).1 rfl (by decide)
  ⟨⟨h.1, h.2.1, h.2.2.1, (h.2.2.2 (by decide) rfl).1, (h.2.2.2 (by decide) rfl).2⟩,
    (C6_data_before_idle k60Masks 0 7 (rxReads 0 88 0 0)
      { bootState 4 with
        rx_callback := fun _ => some 7
        receiving := store (fun _ => 0) 0 1 }).2 (by decide)⟩

/-- C7: in an entry with RDRF set on a line whose callback slot is `NULL`, `D` is still read
exactly once, no callback is invoked, the entry consists of register accesses and STOP
counter operations only, and the latches, the STOP counter and the STOP counter operations
are the same as for that entry after `uart_set_rx_callback` has registered any callback
`fn` on the line. -/
theorem C7_unregistered_callback (m : UartMasks) (u : Nat) (r : RxIrqReads) (s : Driver)
    (hnone : s.rx_callback u = none) (hd : r.S1 &&& m.UART_S1_RDRF_MASK ≠ 0) :
    (rx_irq_handler m u r s).2.filter isReadD = [Event.readD u (r.D % 256)] ∧
    (rx_irq_handler m u r s).2.filter isCallback = [] ∧
    visible (rx_irq_handler m u r s).2 = stopOps (rx_irq_handler m u r s).2 ∧
    ∀ fn : Nat,
      (rx_irq_handler m u r (uart_set_rx_callback u (some fn) s)).1.receiving
        = (rx_irq_handler m u r s).1.receiving ∧
      (rx_irq_handler m u r (uart_set_rx_callback u (some fn) s)).1.llwu_inhibit_stop_sema
        = (rx_irq_handler m u r s).1.llwu_inhibit_stop_sema ∧
      stopOps (rx_irq_handler m u r (uart_set_rx_callback u (some fn) s)).2
        = stopOps (rx_irq_handler m u r s).2 := by
  unfold rx_irq_handler rx_data_ready rx_idle_check rx_edge_check uart_set_rx_callback
  by_cases h2 : r.S2_idle &&& m.UART_S2_RAF_MASK = 0 <;>
  by_cases h3 : r.S2_edge &&& m.UART_S2_RXEDGIF_MASK ≠ 0 <;>
  by_cases h4 : s.receiving u = 0 <;>
  simp [hd, hnone, h2, h3, h4, isReadD, isCallback, visible, stopOps, store]

/-- C7, concrete entry on line 3 of the boot state (no callback registered), byte 65. -/
theorem C7_unregistered_callback_witness :
    (rx_irq_handler k60Masks 3 (rxReads 32 65 1 64) (bootState 0)).2.filter isReadD
      = [Event.readD 3 (65 % 256)] ∧
    (rx_irq_handler k60Masks 3 (rxReads 32 65 1 64) (bootState 0)).2.filter isCallback = [] :=
  ⟨(C7_unregistered_callback k60Masks 3 (rxReads 32 65 1 64) (bootState 0) rfl (by decide)).1,
    (C7_unregistered_callback k60Masks 3 (rxReads 32 65 1 64) (bootState 0) rfl
      (by decide)).2.1⟩

/-! ## C8, C9: blocking transmit -/

theorem spin_spec (S1 : Nat → Nat) (u bit : Nat) (i : Nat) :
    ∀ (fuel t : Nat), i < fuel →
      (∀ k, k < i → BITBAND_REG8 (S1 (t + k)) bit = 0) →
      BITBAND_REG8 (S1 (t + i)) bit ≠ 0 →
      spin S1 u bit fuel t = some (t + i + 1, List.replicate (i + 1) (Event.readS1 u)) := by
  induction i with
  | zero =>
    intro fuel t hf _ hset
    cases fuel with
    | zero => omega
    | succ fuel =>
      simp only [Nat.add_zero] at hset
      simp [spin, hset]
  | succ i ih =>
    intro fuel t hf hclear hset
    cases fuel with
    | zero => omega
    | succ fuel =>
      have h0 : BITBAND_REG8 (S1 t) bit = 0 := by
        have := hclear 0 (by omega)
        simpa using this
      have hrec := ih fuel (t + 1) (by omega)
        (fun k hk => by
          have := hclear (k + 1) (by omega)
          rw [show t + 1 + k = t + (k + 1) by omega]
          exact this)
        (by rw [show t + 1 + i = t + (i + 1) by omega]; exact hset)
      simp only [spin, h0, if_true, hrec]
      simp only [List.replicate_succ]
      rw [show t + 1 + i + 1 = t + (i + 1) + 1 by omega]

theorem uart_putchar_spec (sh : UartShifts) (S1 : Nat → Nat) (u ch t i j fuel : Nat)
    (s : Driver) (hfi : i < fuel) (hfj : j < fuel)
    (hi : BITBAND_REG8 (S1 (t + i)) sh.UART_S1_TDRE_SHIFT ≠ 0)
    (hi_min : ∀ k, k < i → BITBAND_REG8 (S1 (t + k)) sh.UART_S1_TDRE_SHIFT = 0)
    (hj : BITBAND_REG8 (S1 (t + i + 1 + j)) sh.UART_S1_TC_SHIFT ≠ 0)
    (hj_min : ∀ k, k < j → BITBAND_REG8 (S1 (t + i + 1 + k)) sh.UART_S1_TC_SHIFT = 0) :
    uart_putchar sh S1 fuel u ch t s =
      some (s, t + i + 1 + j + 1,
        List.replicate (i + 1) (Event.readS1 u) ++ [Event.writeD u (ch % 256)]
          ++ List.replicate (j + 1) (Event.readS1 u)) := by
  unfold uart_putchar
  rw [spin_spec S1 u sh.UART_S1_TDRE_SHIFT i fuel t hfi hi_min hi]
  simp only
  rw [spin_spec S1 u sh.UART_S1_TC_SHIFT j fuel (t + i + 1) hfj hj_min hj]

/-- C9: when TDRE is eventually read as set and, after the write that follows the first
such read, TC is eventually read as set, `uart_putchar` returns for every sufficient fuel.
With `i` the number of reads that saw TDRE clear and `j` the number of later reads that saw
TC clear, its events are `i + 1` status reads, one write of `ch` reduced to 8 bits to `D`,
and `j + 1` status reads, the last of which saw TC set; the driver state (inhibit counters,
latches, callback slots) is returned unchanged. -/
theorem C9_putchar_blocking (sh : UartShifts) (S1 : Nat → Nat) (u ch t : Nat) (s : Driver)
    (hT : ∃ i, BITBAND_REG8 (S1 (t + i)) sh.UART_S1_TDRE_SHIFT ≠ 0)
    (hC : ∀ i, BITBAND_REG8 (S1 (t + i)) sh.UART_S1_TDRE_SHIFT ≠ 0 →
      (∀ k, k < i → BITBAND_REG8 (S1 (t + k)) sh.UART_S1_TDRE_SHIFT = 0) →
      ∃ j, BITBAND_REG8 (S1 (t + i + 1 + j)) sh.UART_S1_TC_SHIFT ≠ 0) :
    ∃ i j,
      BITBAND_REG8 (S1 (t + i)) sh.UART_S1_TDRE_SHIFT ≠ 0 ∧
      (∀ k, k < i → BITBAND_REG8 (S1 (t + k)) sh.UART_S1_TDRE_SHIFT = 0) ∧
      BITBAND_REG8 (S1 (t + i + 1 + j)) sh.UART_S1_TC_SHIFT ≠ 0 ∧
      (∀ k, k < j → BITBAND_REG8 (S1 (t + i + 1 + k)) sh.UART_S1_TC_SHIFT = 0) ∧
      ∀ fuel, i < fuel → j < fuel →
        uart_putchar sh S1 fuel u ch t s =
          some (s, t + i + 1 + j + 1,
            List.replicate (i + 1) (Event.readS1 u) ++ [Event.writeD u (ch % 256)]
              ++ List.replicate (j + 1) (Event.readS1 u)) := by
  have hi := Nat.find_spec hT
  have hi_min : ∀ k, k < Nat.find hT →
      BITBAND_REG8 (S1 (t + k)) sh.UART_S1_TDRE_SHIFT = 0 :=
    fun k hk => not_not.mp (Nat.find_min hT hk)
  have hTC := hC (Nat.find hT) hi hi_min
  have hj := Nat.find_spec hTC
  have hj_min : ∀ k, k < Nat.find hTC →
      BITBAND_REG8 (S1 (t + Nat.find hT + 1 + k)) sh.UART_S1_TC_SHIFT = 0 :=
    fun k hk => not_not.mp (Nat.find_min hTC hk)
  exact ⟨Nat.find hT, Nat.find hTC, hi, hi_min, hj, hj_min,
    fun fuel hfi hfj => uart_putchar_spec sh S1 u ch t _ _ fuel s hfi hfj hi hi_min hj hj_min⟩

/-- C9, concrete stream: the status reads 0, 0, 0x80, 0x80, 0xC0, 0xC0, ... -/
theorem C9_putchar_blocking_witness :
    ∃ i j,
      BITBAND_REG8 (slowStatus (0 + i)) k60Shifts.UART_S1_TDRE_SHIFT ≠ 0 ∧
      (∀ k, k < i → BITBAND_REG8 (slowStatus (0 + k)) k60Shifts.UART_S1_TDRE_SHIFT = 0) ∧
      BITBAND_REG8 (slowStatus (0 + i + 1 + j)) k60Shifts.UART_S1_TC_SHIFT ≠ 0 ∧
      (∀ k, k < j → BITBAND_REG8 (slowStatus (0 + i + 1 + k)) k60Shifts.UART_S1_TC_SHIFT = 0) ∧
      ∀ fuel, i < fuel → j < fuel →
        uart_putchar k60Shifts slowStatus fuel 1 65 0 (bootState 3) =
          some (bootState 3, 0 + i + 1 + j + 1,
            List.replicate (i + 1) (Event.readS1 1) ++ [Event.writeD 1 (65 % 256)]
              ++ List.replicate (j + 1) (Event.readS1 1)) :=
  C9_putchar_blocking k60Shifts slowStatus 1 65 0 (bootState 3) ⟨2, by decide⟩
    (fun i _ _ => ⟨4, by
      have h : slowStatus (0 + i + 1 + 4) = 192 := by
        unfold slowStatus
        rw [if_neg (by omega), if_neg (by omega)]
      rw [h]
      decide⟩)

theorem uart_putchar_ready (sh : UartShifts) (S1 : Nat → Nat) (u ch t fuel : Nat) (s : Driver)
    (hfuel : 0 < fuel)
    (hready : ∀ k, BITBAND_REG8 (S1 k) sh.UART_S1_TDRE_SHIFT ≠ 0 ∧
      BITBAND_REG8 (S1 k) sh.UART_S1_TC_SHIFT ≠ 0) :
    uart_putchar sh S1 fuel u ch t s =
      some (s, t + 2,
        [Event.readS1 u, Event.writeD u (ch % 256), Event.readS1 u]) := by
  have h := uart_putchar_spec sh S1 u ch t 0 0 fuel s hfuel hfuel (hready _).1
    (fun k hk => absurd hk (Nat.not_lt_zero k)) (hready _).2
    (fun k hk => absurd hk (Nat.not_lt_zero k))
  rw [h]
  rfl

theorem dataWrites_putchar_cycles (u : Nat) (cs : List Nat) :
    dataWrites (putchar_cycles u cs) = cs := by
  induction cs with
  | nil => rfl
  | cons c cs ih => simp [putchar_cycles, dataWrites, ih]

/-- C8: for every NUL-terminated string of bytes, when TDRE and TC always read as set,
`uart_putstring` returns (for any fuel of at least one read per loop) with the driver state
unchanged; its events are one complete transmit cycle (TDRE check, write, TC check) per
byte before the first NUL, in order, so the values written to `D` are exactly those bytes;
for a string that starts with NUL there is no event. -/
theorem C8_putstring_cycles (sh : UartShifts) (S1 : Nat → Nat) (u fuel : Nat)
    (str : List Nat) (t : Nat) (s : Driver)
    (hfuel : 0 < fuel) (hnul : 0 ∈ str) (hbytes : ∀ c ∈ str, c < 256)
    (hready : ∀ k, BITBAND_REG8 (S1 k) sh.UART_S1_TDRE_SHIFT ≠ 0 ∧
      BITBAND_REG8 (S1 k) sh.UART_S1_TC_SHIFT ≠ 0) :
    uart_putstring sh S1 fuel u str t s =
      some (s, t + 2 * (str.takeWhile (fun c => c != 0)).length,
        putchar_cycles u (str.takeWhile (fun c => c != 0))) ∧
    dataWrites (putchar_cycles u (str.takeWhile (fun c => c != 0)))
      = str.takeWhile (fun c => c != 0) ∧
    (str.head? = some 0 → uart_putstring sh S1 fuel u str t s = some (s, t, [])) := by
  refine ⟨?_, dataWrites_putchar_cycles u _, ?_⟩
  · induction str generalizing t with
    | nil => simp at hnul
    | cons c p ih =>
      by_cases hc : c = 0
      · subst hc
        simp [uart_putstring, putchar_cycles]
      · have hnul2 : 0 ∈ p := by
          rcases List.mem_cons.mp hnul with h | h
          · exact absurd h.symm hc
          · exact h
        have hrec := ih (t + 2) hnul2 (fun x hx => hbytes x (List.mem_cons_of_mem c hx))
        have hcb : c % 256 = c := Nat.mod_eq_of_lt (hbytes c (List.mem_cons_self c p))
        have hpc := uart_putchar_ready sh S1 u c t fuel s hfuel hready
        rw [hcb] at hpc
        simp only [uart_putstring, hc, if_false, hpc, hrec]
        have hne : (c != 0) = true := by simp [hc]
        simp only [List.takeWhile_cons, hne, if_true, List.length_cons, putchar_cycles]
        refine congrArg some (Prod.ext rfl (Prod.ext ?_ rfl))
        simp only
        omega
  · intro hhead
    cases str with
    | nil => simp at hhead
    | cons c p =>
      simp only [List.head?_cons, Option.some.injEq] at hhead
      subst hhead
      simp [uart_putstring]

/-- C8, the string "AB" on line 1 with the status register reading 0xC0 at every read: two
write cycles, 'A' (65) then 'B' (66). -/
theorem C8_putstring_cycles_witness :
    uart_putstring k60Shifts (fun _ => 192) 1 1 [65, 66, 0] 0 (bootState 0) =
      some (bootState 0, 0 + 2 * ([65, 66, 0].takeWhile (fun c => c != 0)).length,
        putchar_cycles 1 ([65, 66, 0].takeWhile (fun c => c != 0))) ∧
    putchar_cycles 1 ([65, 66, 0].takeWhile (fun c => c != 0))
      = [Event.readS1 1, Event.writeD 1 65, Event.readS1 1,
          Event.readS1 1, Event.writeD 1 66, Event.readS1 1] ∧
    dataWrites (putchar_cycles 1 ([65, 66, 0].takeWhile (fun c => c != 0))) = [65, 66] :=
  ⟨(C8_putstring_cycles k60Shifts (fun _ => 192) 1 1 [65, 66, 0] 0 (bootState 0)
      (by decide) (by decide) (by decide)
      (fun _ => ⟨(by decide : BITBAND_REG8 192 7 ≠ 0), (by decide : BITBAND_REG8 192 6 ≠ 0)⟩)).1,
    by decide, by decide⟩

/-! ## C10: the compare-and-retry protocol under interleaving -/

theorem applyOps_nil (v : Nat) : applyOps v [] = v := rfl

theorem applyOps_cons (v : Nat) (op : Op) (t : List Op) :
    applyOps v (op :: t) = applyOps (apply_op op v) t := rfl

theorem applyOps_append (v : Nat) (a b : List Op) :
    applyOps v (a ++ b) = applyOps (applyOps v a) b := by
  simp [applyOps]

theorem apply_op_inc_mod (v : Nat) :
    apply_op Op.inc v < 4294967296 ∧ apply_op Op.inc v = (v + 1) % 4294967296 := by
  refine ⟨?_, rfl⟩
  show (v + 1) % 4294967296 < 4294967296
  omega

theorem apply_op_dec_mod (v : Nat) (hv : v < 4294967296) :
    apply_op Op.dec v < 4294967296 ∧ (apply_op Op.dec v + 1) % 4294967296 = v := by
  simp only [apply_op, exclusive_decrement]
  split <;> omega

theorem applyOps_mod (ops : List Op) :
    ∀ v, v < 4294967296 →
      applyOps v ops < 4294967296 ∧
      (applyOps v ops + ops.count Op.dec) % 4294967296
        = (v + ops.count Op.inc) % 4294967296 := by
  induction ops with
  | nil => intro v hv; exact ⟨hv, rfl⟩
  | cons op t ih =>
    intro v hv
    rw [applyOps_cons]
    cases op with
    | inc =>
      obtain ⟨hlt, hw⟩ := apply_op_inc_mod v
      have h := ih (apply_op Op.inc v) hlt
      refine ⟨h.1, ?_⟩
      have h2 := h.2
      simp only [List.count_cons_self, List.count_cons_of_ne (show Op.dec ≠ Op.inc by decide)]
      generalize apply_op Op.inc v = w at *
      omega
    | dec =>
      obtain ⟨hlt, hw⟩ := apply_op_dec_mod v hv
      have h := ih (apply_op Op.dec v) hlt
      refine ⟨h.1, ?_⟩
      have h2 := h.2
      simp only [List.count_cons_self, List.count_cons_of_ne (show Op.inc ≠ Op.dec by decide)]
      generalize apply_op Op.dec v = w at *
      omega

theorem applyOps_exact (ops : List Op) :
    ∀ v, v < 4294967296 → noWrap v ops = true →
      applyOps v ops + ops.count Op.dec = v + ops.count Op.inc := by
  induction ops with
  | nil => intro v _ _; rfl
  | cons op t ih =>
    intro v hlt hv
    rw [applyOps_cons]
    cases op with
    | inc =>
      simp only [noWrap, Bool.and_eq_true, decide_eq_true_eq] at hv
      have h0 := hv.1
      have h := ih (v + 1) h0 hv.2
      have h1 : apply_op Op.inc v = v + 1 := by
        simp only [apply_op, exclusive_increment]
        omega
      rw [h1]
      simp only [List.count_cons_self, List.count_cons_of_ne (show Op.dec ≠ Op.inc by decide)]
      omega
    | dec =>
      simp only [noWrap, Bool.and_eq_true, decide_eq_true_eq] at hv
      have h0 := hv.1
      have h := ih (v - 1) (by omega) hv.2
      have h1 : apply_op Op.dec v = v - 1 := by
        simp only [apply_op, exclusive_decrement]
        rw [if_neg (by omega)]
        omega
      rw [h1]
      simp only [List.count_cons_self, List.count_cons_of_ne (show Op.inc ≠ Op.dec by decide)]
      omega

theorem applyOps_paired (ops : List Op) :
    ∀ b v, pairedFrom b ops = true → b ≤ v → v + ops.count Op.inc < 4294967296 →
      applyOps v ops + ops.count Op.dec = v + ops.count Op.inc ∧ v - b ≤ applyOps v ops := by
  induction ops with
  | nil =>
    intro b v _ _ _
    exact ⟨rfl, by rw [applyOps_nil]; omega⟩
  | cons op t ih =>
    intro b v hp hb hlt
    rw [applyOps_cons]
    cases op with
    | inc =>
      simp only [pairedFrom] at hp
      simp only [List.count_cons_self, List.count_cons_of_ne (show Op.dec ≠ Op.inc by decide)]
        at hlt ⊢
      have h1 : apply_op Op.inc v = v + 1 := by
        simp only [apply_op, exclusive_increment]
        omega
      rw [h1]
      have h := ih (b + 1) (v + 1) hp (by omega) (by omega)
      omega
    | dec =>
      simp only [pairedFrom, Bool.and_eq_true, decide_eq_true_eq] at hp
      simp only [List.count_cons_self, List.count_cons_of_ne (show Op.inc ≠ Op.dec by decide)]
        at hlt ⊢
      have h0 := hp.1
      have h1 : apply_op Op.dec v = v - 1 := by
        simp only [apply_op, exclusive_decrement]
        rw [if_neg (by omega)]
        omega
      rw [h1]
      have h := ih (b - 1) (v - 1) hp.2 (by omega) (by omega)
      omega

/-! The protocol, one slot at a time. -/

theorem pass_cases (mem : Nat) (me other : Ctx) (done : List Op) (sp : Bool)
    (hme : Coherent mem me) :
    ((pass mem me other done sp).1 = mem ∧
      (pass mem me other done sp).2.2.2 = done ∧
      (pass mem me other done sp).2.1.prog = me.prog ∧
      (pass mem me other done sp).2.2.1 = other ∧
      Coherent mem (pass mem me other done sp).2.1)
    ∨ (∃ op rest, me.prog = op :: rest ∧
      (pass mem me other done sp).2.1.prog = rest ∧
      (pass mem me other done sp).1 = apply_op op mem ∧
      (pass mem me other done sp).2.2.2 = done ++ [op] ∧
      (pass mem me other done sp).2.2.1.prog = other.prog ∧
      (pass mem me other done sp).2.1.tmp = none ∧
      (pass mem me other done sp).2.2.1.reserved = false) := by
  obtain ⟨prog, tmp, reserved⟩ := me
  unfold pass
  cases prog with
  | nil => exact Or.inl ⟨rfl, rfl, rfl, rfl, hme⟩
  | cons op rest =>
    cases tmp with
    | none =>
      left
      refine ⟨rfl, rfl, rfl, rfl, ?_⟩
      intro v hv _
      simp only [Option.some.injEq] at hv
      exact hv.symm
    | some v =>
      by_cases hc : reserved = true ∧ sp = false
      · right
        have hv : v = mem := hme v rfl hc.1
        refine ⟨op, rest, rfl, ?_⟩
        simp only [if_pos hc, hv]
        exact ⟨trivial, trivial, trivial, trivial, trivial, trivial⟩
      · left
        simp only [if_neg hc]
        refine ⟨trivial, trivial, trivial, trivial, ?_⟩
        intro w hw _
        simp at hw

theorem coherent_of_tmp_none (mem : Nat) (c : Ctx) (h : c.tmp = none) : Coherent mem c := by
  intro v hv _
  rw [h] at hv
  exact absurd hv (by simp)

theorem coherent_of_not_reserved (mem : Nat) (c : Ctx) (h : c.reserved = false) :
    Coherent mem c := by
  intro v _ hr
  rw [h] at hr
  exact absurd hr (by simp)

theorem count_move (o op : Op) (done rest other : List Op) :
    (done ++ [op]).count o + rest.count o + other.count o
      = done.count o + (op :: rest).count o + other.count o := by
  simp only [List.count_append, List.count_cons, List.count_nil]
  omega

theorem step_inv (init : Nat) (st : Machine) (sl : Slot)
    (h : Coherent st.mem st.fg ∧ Coherent st.mem st.irq ∧ st.mem = applyOps init st.done) :
    (Coherent (step st sl).mem (step st sl).fg ∧ Coherent (step st sl).mem (step st sl).irq ∧
      (step st sl).mem = applyOps init (step st sl).done) ∧
    ∀ o, (step st sl).done.count o + (step st sl).fg.prog.count o
        + (step st sl).irq.prog.count o
      = st.done.count o + st.fg.prog.count o + st.irq.prog.count o := by
  obtain ⟨hfg, hirq, hmem⟩ := h
  obtain ⟨who, sp⟩ := sl
  cases who with
  | foreground =>
    simp only [step]
    rcases pass_cases st.mem st.fg st.irq st.done sp hfg with
      ⟨h1, h2, h3, h4, h5⟩ | ⟨op, rest, h1, h2, h3, h4, h5, h6, h7⟩
    · rw [h1, h2, h3, h4]
      exact ⟨⟨h5, hirq, hmem⟩, fun _ => rfl⟩
    · rw [h2, h3, h4, h5]
      refine ⟨⟨coherent_of_tmp_none _ _ h6, coherent_of_not_reserved _ _ h7, ?_⟩, ?_⟩
      · rw [applyOps_append, ← hmem]; rfl
      · intro o
        rw [h1]
        exact count_move o op st.done rest st.irq.prog
  | interrupt =>
    simp only [step]
    rcases pass_cases st.mem st.irq st.fg st.done sp hirq with
      ⟨h1, h2, h3, h4, h5⟩ | ⟨op, rest, h1, h2, h3, h4, h5, h6, h7⟩
    · rw [h1, h2, h3, h4]
      exact ⟨⟨hfg, h5, hmem⟩, fun _ => rfl⟩
    · rw [h2, h3, h4, h5]
      refine ⟨⟨coherent_of_not_reserved _ _ h7, coherent_of_tmp_none _ _ h6, ?_⟩, ?_⟩
      · rw [applyOps_append, ← hmem]; rfl
      · intro o
        rw [h1]
        have := count_move o op st.done rest st.fg.prog
        omega

theorem run_inv (init : Nat) (sched : List Slot) :
    ∀ st : Machine,
      (Coherent st.mem st.fg ∧ Coherent st.mem st.irq ∧ st.mem = applyOps init st.done) →
      (Coherent (run sched st).mem (run sched st).fg ∧
        Coherent (run sched st).mem (run sched st).irq ∧
        (run sched st).mem = applyOps init (run sched st).done) ∧
      ∀ o, (run sched st).done.count o + (run sched st).fg.prog.count o
          + (run sched st).irq.prog.count o
        = st.done.count o + st.fg.prog.count o + st.irq.prog.count o := by
  induction sched with
  | nil => intro st h; exact ⟨h, fun _ => rfl⟩
  | cons sl rest ih =>
    intro st h
    have h1 := step_inv init st sl h
    have h2 := ih (step st sl) h1.1
    have hrun : run (sl :: rest) st = run rest (step st sl) := rfl
    rw [hrun]
    exact ⟨h2.1, fun o => by rw [h2.2 o, h1.2 o]⟩

/-- C10 (amended): for any interleaving of the instructions of increment and decrement
calls of the foreground and the interrupt context on one 32-bit counter, spurious store
failures included, no update is lost: the counter is the result of applying the completed
calls one after the other, every call is either completed once or still pending, and the
counter equals the initial value plus the completed increments minus the completed
decrements modulo 2 ^ 32; once both contexts have completed their calls this is the initial
value plus all increments minus all decrements modulo 2 ^ 32. When the completed calls, in
completion order, never decrement zero and never increment 2 ^ 32 - 1, the equality is
exact. In particular, when every completed decrement is preceded by its paired increment
and the initial value plus the completed increments is below 2 ^ 32, the equality is exact
and the counter is not below its initial value, hence not below zero. -/
theorem C10_no_lost_update (init : Nat) (fgCalls irqCalls : List Op) (sched : List Slot)
    (hinit : init < 4294967296) :
    (run sched (startMachine init fgCalls irqCalls)).mem
      = applyOps init (run sched (startMachine init fgCalls irqCalls)).done ∧
    (∀ o, (run sched (startMachine init fgCalls irqCalls)).done.count o
        + (run sched (startMachine init fgCalls irqCalls)).fg.prog.count o
        + (run sched (startMachine init fgCalls irqCalls)).irq.prog.count o
      = fgCalls.count o + irqCalls.count o) ∧
    ((run sched (startMachine init fgCalls irqCalls)).mem
        + (run sched (startMachine init fgCalls irqCalls)).done.count Op.dec) % 4294967296
      = (init + (run sched (startMachine init fgCalls irqCalls)).done.count Op.inc)
        % 4294967296 ∧
    ((run sched (startMachine init fgCalls irqCalls)).fg.prog = [] →
      (run sched (startMachine init fgCalls irqCalls)).irq.prog = [] →
      ((run sched (startMachine init fgCalls irqCalls)).mem
          + (fgCalls.count Op.dec + irqCalls.count Op.dec)) % 4294967296
        = (init + (fgCalls.count Op.inc + irqCalls.count Op.inc)) % 4294967296) ∧
    (noWrap init (run sched (startMachine init fgCalls irqCalls)).done = true →
      (run sched (startMachine init fgCalls irqCalls)).mem
          + (run sched (startMachine init fgCalls irqCalls)).done.count Op.dec
        = init + (run sched (startMachine init fgCalls irqCalls)).done.count Op.inc) ∧
    (pairedFrom 0 (run sched (startMachine init fgCalls irqCalls)).done = true →
      init + (run sched (startMachine init fgCalls irqCalls)).done.count Op.inc
        < 4294967296 →
      (run sched (startMachine init fgCalls irqCalls)).mem
          + (run sched (startMachine init fgCalls irqCalls)).done.count Op.dec
        = init + (run sched (startMachine init fgCalls irqCalls)).done.count Op.inc ∧
      init ≤ (run sched (startMachine init fgCalls irqCalls)).mem) := by
  have h := run_inv init sched (startMachine init fgCalls irqCalls)
    ⟨coherent_of_tmp_none _ _ rfl, coherent_of_tmp_none _ _ rfl, rfl⟩
  obtain ⟨⟨_, _, hmem⟩, hcount⟩ := h
  have hmod := (applyOps_mod (run sched (startMachine init fgCalls irqCalls)).done init hinit).2
  have hc : ∀ o, (run sched (startMachine init fgCalls irqCalls)).done.count o
        + (run sched (startMachine init fgCalls irqCalls)).fg.prog.count o
        + (run sched (startMachine init fgCalls irqCalls)).irq.prog.count o
      = fgCalls.count o + irqCalls.count o := by
    intro o
    rw [hcount o]
    simp [startMachine]
  refine ⟨hmem, hc, ?_, ?_, ?_, ?_⟩
  · rw [hmem]; exact hmod
  · intro hf hi
    have h1 := hc Op.inc
    have h2 := hc Op.dec
    rw [hf, hi] at h1 h2
    simp only [List.count_nil, Nat.add_zero] at h1 h2
    rw [← h1, ← h2, hmem]
    exact hmod
  · intro hnw
    rw [hmem]
    exact applyOps_exact _ init hinit hnw
  · intro hp hlt
    rw [hmem]
    have h := applyOps_paired _ 0 init hp (Nat.zero_le init) hlt
    exact ⟨h.1, by have := h.2; omega⟩

/-- C10, concrete interleaving from a counter of 5: the foreground loads for its increment,
the interrupt context completes an increment and a decrement, the foreground store fails
and the increment is retried; both contexts finish and the counter is 6. -/
theorem C10_no_lost_update_witness :
    (run [fgSlot, irqSlot, irqSlot, irqSlot, irqSlot, fgSlot, fgSlot, fgSlot]
        (startMachine 5 [Op.inc] [Op.inc, Op.dec])).fg.prog = [] ∧
    (run [fgSlot, irqSlot, irqSlot, irqSlot, irqSlot, fgSlot, fgSlot, fgSlot]
        (startMachine 5 [Op.inc] [Op.inc, Op.dec])).irq.prog = [] ∧
    (run [fgSlot, irqSlot, irqSlot, irqSlot, irqSlot, fgSlot, fgSlot, fgSlot]
        (startMachine 5 [Op.inc] [Op.inc, Op.dec])).mem = 6 ∧
    ((run [fgSlot, irqSlot, irqSlot, irqSlot, irqSlot, fgSlot, fgSlot, fgSlot]
          (startMachine 5 [Op.inc] [Op.inc, Op.dec])).mem
        + ([Op.inc].count Op.dec + [Op.inc, Op.dec].count Op.dec)) % 4294967296
      = (5 + ([Op.inc].count Op.inc + [Op.inc, Op.dec].count Op.inc)) % 4294967296 ∧
    (run [fgSlot, irqSlot, irqSlot, irqSlot, irqSlot, fgSlot, fgSlot, fgSlot]
          (startMachine 5 [Op.inc] [Op.inc, Op.dec])).mem
        + (run [fgSlot, irqSlot, irqSlot, irqSlot, irqSlot, fgSlot, fgSlot, fgSlot]
          (startMachine 5 [Op.inc] [Op.inc, Op.dec])).done.count Op.dec
      = 5 + (run [fgSlot, irqSlot, irqSlot, irqSlot, irqSlot, fgSlot, fgSlot, fgSlot]
          (startMachine 5 [Op.inc] [Op.inc, Op.dec])).done.count Op.inc ∧
    5 ≤ (run [fgSlot, irqSlot, irqSlot, irqSlot, irqSlot, fgSlot, fgSlot, fgSlot]
          (startMachine 5 [Op.inc] [Op.inc, Op.dec])).mem :=
  ⟨by decide, by decide, by decide,
    (C10_no_lost_update 5 [Op.inc] [Op.inc, Op.dec]
      [fgSlot, irqSlot, irqSlot, irqSlot, irqSlot, fgSlot, fgSlot, fgSlot]
      (by decide)).2.2.2.1 (by decide) (by decide),
    (C10_no_lost_update 5 [Op.inc] [Op.inc, Op.dec]
      [fgSlot, irqSlot, irqSlot, irqSlot, irqSlot, fgSlot, fgSlot, fgSlot]
      (by decide)).2.2.2.2.1 (by decide),
    ((C10_no_lost_update 5 [Op.inc] [Op.inc, Op.dec]
      [fgSlot, irqSlot, irqSlot, irqSlot, irqSlot, fgSlot, fgSlot, fgSlot]
      (by decide)).2.2.2.2.2 (by decide) (by decide)).2⟩

/-- C10 as stated fails on the 32-bit counter. From 0, one decrement by the foreground
completes and leaves 2 ^ 32 - 1, not 0 + 0 - 1; from 2 ^ 32 - 1, one increment completes and
leaves 0, not 2 ^ 32 - 1 + 1. -/
theorem C10_counterexample :
    ((run [fgSlot, fgSlot] (startMachine 0 [Op.dec] [])).fg.prog = [] ∧
      (run [fgSlot, fgSlot] (startMachine 0 [Op.dec] [])).irq.prog = [] ∧
      (run [fgSlot, fgSlot] (startMachine 0 [Op.dec] [])).mem = 4294967295 ∧
      ((run [fgSlot, fgSlot] (startMachine 0 [Op.dec] [])).mem : Int)
        ≠ (0 : Int) + (([Op.dec].count Op.inc : Nat) : Int)
          - (([Op.dec].count Op.dec : Nat) : Int)) ∧
    ((run [fgSlot, fgSlot] (startMachine 4294967295 [Op.inc] [])).fg.prog = [] ∧
      (run [fgSlot, fgSlot] (startMachine 4294967295 [Op.inc] [])).irq.prog = [] ∧
      (run [fgSlot, fgSlot] (startMachine 4294967295 [Op.inc] [])).mem = 0 ∧
      ((run [fgSlot, fgSlot] (startMachine 4294967295 [Op.inc] [])).mem : Int)
        ≠ (4294967295 : Int) + (([Op.inc].count Op.inc : Nat) : Int)
          - (([Op.inc].count Op.dec : Nat) : Int)) := by
  decide


/-! ## C11: the sleep-depth policy -/

theorem forbidden_idle (s : Driver) (cs : List llwu_control) :
    forbidden s cs SleepDepth.idle = false := by
  simp [forbidden, SleepDepth.rank]

theorem forbidden_stop (s : Driver) (cs : List llwu_control) :
    forbidden s cs SleepDepth.stop
      = (s.llwu_inhibit_stop_sema != 0 || cs.any (fun c => c.allow_llwu == 0)) := by
  simp [forbidden, SleepDepth.rank, inhibit_count]

theorem forbidden_vlps (s : Driver) (cs : List llwu_control) :
    forbidden s cs SleepDepth.vlps
      = (s.llwu_inhibit_stop_sema != 0 || s.llwu_inhibit_vlps_sema != 0
          || cs.any (fun c => c.allow_llwu == 0)) := by
  simp [forbidden, SleepDepth.rank, inhibit_count, Bool.or_assoc]

theorem forbidden_lls (s : Driver) (cs : List llwu_control) :
    forbidden s cs SleepDepth.lls
      = (s.llwu_inhibit_stop_sema != 0 || s.llwu_inhibit_vlps_sema != 0
          || s.llwu_inhibit_lls_sema != 0 || cs.any (fun c => c.allow_llwu == 0)) := by
  simp [forbidden, SleepDepth.rank, inhibit_count, Bool.or_assoc]

/-- C11: for every state of the three inhibit counters and every list of registered
controllers, the depth `llwu_sleep` chooses is not forbidden and every deeper depth in the
order idle < STOP < VLPS < LLS is forbidden, and it is the only depth with that property;
a depth is forbidden by a non-zero counter of that depth or of a shallower one, and every
depth deeper than idle is forbidden by a controller with `allow = false`. With counts
STOP 0, VLPS 1, LLS 0 and all controllers allowing the choice is STOP; with all counts 0
and one controller with `allow = false` the choice is idle. -/
theorem C11_llwu_sleep_deepest (s : Driver) (cs : List llwu_control) :
    forbidden s cs (llwu_sleep s cs) = false ∧
    (∀ d : SleepDepth, (llwu_sleep s cs).rank < d.rank → forbidden s cs d = true) ∧
    (∀ d : SleepDepth, forbidden s cs d = false →
      (∀ e : SleepDepth, d.rank < e.rank → forbidden s cs e = true) → d = llwu_sleep s cs) ∧
    (∀ d D : SleepDepth, inhibit_count s D ≠ 0 → D.rank ≤ d.rank → forbidden s cs d = true) ∧
    (∀ d : SleepDepth, (∃ c ∈ cs, c.allow_llwu = 0) → 0 < d.rank → forbidden s cs d = true) ∧
    (s.llwu_inhibit_stop_sema = 0 → s.llwu_inhibit_vlps_sema = 1 →
      s.llwu_inhibit_lls_sema = 0 → (∀ c ∈ cs, c.allow_llwu ≠ 0) →
      llwu_sleep s cs = SleepDepth.stop) ∧
    (s.llwu_inhibit_stop_sema = 0 → s.llwu_inhibit_vlps_sema = 0 →
      s.llwu_inhibit_lls_sema = 0 → (∃ c ∈ cs, c.allow_llwu = 0) →
      llwu_sleep s cs = SleepDepth.idle) := by
  have hany : cs.any (fun c => c.allow_llwu == 0) = true ↔ ∃ c ∈ cs, c.allow_llwu = 0 := by
    simp [List.any_eq_true]
  refine ⟨?_, ?_, ?_, ?_, ?_, ?_, ?_⟩
  · unfold llwu_sleep
    split
    · assumption
    · split
      · assumption
      · split
        · assumption
        · exact forbidden_idle s cs
  · intro d hd
    unfold llwu_sleep at hd
    rw [forbidden_lls, forbidden_vlps, forbidden_stop] at hd
    cases d <;>
      by_cases h1 : s.llwu_inhibit_stop_sema = 0 <;>
      by_cases h2 : s.llwu_inhibit_vlps_sema = 0 <;>
      by_cases h3 : s.llwu_inhibit_lls_sema = 0 <;>
      cases h4 : cs.any (fun c => c.allow_llwu == 0) <;>
      simp [h1, h2, h3, h4, SleepDepth.rank, forbidden_stop, forbidden_vlps,
        forbidden_lls] at hd ⊢
  · intro d hd hdeep
    have hl := hdeep SleepDepth.lls
    have hv := hdeep SleepDepth.vlps
    have hs := hdeep SleepDepth.stop
    unfold llwu_sleep
    cases d <;> simp only [SleepDepth.rank] at hl hv hs <;>
      simp_all
  · intro d D hD hle
    cases D <;> cases d <;> simp only [SleepDepth.rank] at hle <;>
      simp_all [forbidden, inhibit_count, SleepDepth.rank]
  · intro d hc hd
    have h := hany.mpr hc
    cases d <;> simp only [SleepDepth.rank] at hd <;>
      simp_all [forbidden_stop, forbidden_vlps, forbidden_lls]
  · intro h1 h2 h3 hall
    have h4 : cs.any (fun c => c.allow_llwu == 0) = false := by
      rw [Bool.eq_false_iff]
      intro h
      obtain ⟨c, hc, hz⟩ := hany.mp h
      exact hall c hc hz
    unfold llwu_sleep
    rw [forbidden_lls, forbidden_vlps, forbidden_stop]
    simp [h1, h2, h3, h4]
  · intro h1 h2 h3 hex
    have h4 := hany.mpr hex
    unfold llwu_sleep
    rw [forbidden_lls, forbidden_vlps, forbidden_stop]
    simp [h1, h2, h3, h4]

/-- C11, the two policy cases of the spec: counts STOP 0, VLPS 1, LLS 0 with two allowing
controllers, and all counts 0 with one of two controllers disallowing. -/
theorem C11_llwu_sleep_deepest_witness :
    llwu_sleep { bootState 0 with llwu_inhibit_vlps_sema := 1 }
        [{ allow_llwu := 1 }, { allow_llwu := 1 }] = SleepDepth.stop ∧
    llwu_sleep (bootState 0) [{ allow_llwu := 1 }, { allow_llwu := 0 }] = SleepDepth.idle :=
  ⟨(C11_llwu_sleep_deepest { bootState 0 with llwu_inhibit_vlps_sema := 1 }
      [{ allow_llwu := 1 }, { allow_llwu := 1 }]).2.2.2.2.2.1 rfl rfl rfl (by decide),
    (C11_llwu_sleep_deepest (bootState 0)
      [{ allow_llwu := 1 }, { allow_llwu := 0 }]).2.2.2.2.2.2 rfl rfl rfl
      ⟨{ allow_llwu := 0 }, by decide, rfl⟩⟩

/-! ## C16: bit-band alias addresses -/

theorem and_high_nibble (x : Nat) :
    x &&& 0xF0000000 = (x / 268435456 % 16) * 268435456 := by
  have h1 : (0xF0000000 : Nat) = (2 ^ 4 - 1) <<< 28 := by decide
  have h2 : (x / 268435456 % 16) * 268435456 = ((x >>> 28) % 2 ^ 4) <<< 28 := by
    rw [Nat.shiftLeft_eq, Nat.shiftRight_eq_div_pow]
    norm_num
  rw [h1, h2]
  apply Nat.eq_of_testBit_eq
  intro i
  simp only [Nat.testBit_and, Nat.testBit_shiftLeft, Nat.testBit_mod_two_pow,
    Nat.testBit_shiftRight, Nat.testBit_two_pow_sub_one]
  by_cases h : 28 ≤ i
  · have : 28 + (i - 28) = i := by omega
    simp [h, this, Bool.and_comm]
  · simp [h]

theorem and_low_bits (x : Nat) : x &&& 0xFFFFF = x % 1048576 := by
  have h1 : (0xFFFFF : Nat) = 2 ^ 20 - 1 := by decide
  rw [h1, Nat.and_pow_two_sub_one_eq_mod]

theorem BITBAND_ADDR_eq (base off b : Nat)
    (hbase : base = 0x20000000 ∨ base = 0x40000000)
    (hoff : off < 0x100000) (hb : b ≤ 31) :
    BITBAND_ADDR (base + off) b = base + 0x02000000 + 32 * off + 4 * b := by
  unfold BITBAND_ADDR
  rw [and_high_nibble, and_low_bits, Nat.shiftLeft_eq, Nat.shiftLeft_eq]
  rcases hbase with h | h <;> subst h <;> omega

/-- C16 (amended): for every byte address `base + off` inside a 1 MiB bit-band region (base
0x20000000 or 0x40000000, `off` below 0x100000) and every bit number `b` in 0..31,
`BITBAND_ADDR` evaluated in 32-bit unsigned arithmetic equals
`base + 0x02000000 + 32 * off + 4 * b`, a sum below 2 ^ 32, is 4-byte aligned and is not
below the start of the region's alias window. It is below the end of the 32 MiB window
exactly when the named bit `8 * off + b` is one of the `8 * 0x100000` bits of the region,
which holds for `b` in 0..7 and for 4-byte aligned addresses. Two pairs in the same region
give the same alias address exactly when `8 * off + b = 8 * off2 + b2`. -/
theorem C16_bitband_addr (base off b off2 b2 : Nat)
    (hbase : base = 0x20000000 ∨ base = 0x40000000)
    (hoff : off < 0x100000) (hb : b ≤ 31) (hoff2 : off2 < 0x100000) (hb2 : b2 ≤ 31) :
    BITBAND_ADDR (base + off) b = base + 0x02000000 + 32 * off + 4 * b ∧
    base + 0x02000000 + 32 * off + 4 * b < 4294967296 ∧
    BITBAND_ADDR (base + off) b % 4 = 0 ∧
    base + 0x02000000 ≤ BITBAND_ADDR (base + off) b ∧
    (BITBAND_ADDR (base + off) b < base + 0x04000000 ↔ 8 * off + b < 8 * 0x100000) ∧
    (b ≤ 7 → BITBAND_ADDR (base + off) b < base + 0x04000000) ∧
    (off % 4 = 0 → BITBAND_ADDR (base + off) b < base + 0x04000000) ∧
    (BITBAND_ADDR (base + off) b = BITBAND_ADDR (base + off2) b2
      ↔ 8 * off + b = 8 * off2 + b2) := by
  rw [BITBAND_ADDR_eq base off b hbase hoff hb, BITBAND_ADDR_eq base off2 b2 hbase hoff2 hb2]
  rcases hbase with h | h <;> subst h <;> omega

/-- C16, concrete pairs in the SRAM_U region: byte 0x20000004 bit 3 and byte 0x20000003
bit 11 name the same bit of the region. -/
theorem C16_bitband_addr_witness :
    BITBAND_ADDR (0x20000000 + 4) 3 = 0x20000000 + 0x02000000 + 32 * 4 + 4 * 3 ∧
    BITBAND_ADDR (0x20000000 + 4) 3 < 0x20000000 + 0x04000000 ∧
    BITBAND_ADDR (0x20000000 + 4) 3 = BITBAND_ADDR (0x20000000 + 3) 11 :=
  ⟨(C16_bitband_addr 0x20000000 4 3 3 11 (Or.inl rfl) (by decide) (by decide) (by decide)
      (by decide)).1,
    (C16_bitband_addr 0x20000000 4 3 3 11 (Or.inl rfl) (by decide) (by decide) (by decide)
      (by decide)).2.2.2.2.2.1 (by decide),
    (C16_bitband_addr 0x20000000 4 3 3 11 (Or.inl rfl) (by decide) (by decide) (by decide)
      (by decide)).2.2.2.2.2.2.2.mpr (by decide)⟩

/-- C16 as stated fails at the end of a region: the last byte 0x200FFFFF of the SRAM_U
region with bit number 8 gives the alias address 0x24000000, the first address past the
region's 32 MiB alias window. -/
theorem C16_counterexample :
    (0x200FFFFF : Nat) = 0x20000000 + 0xFFFFF ∧ (0xFFFFF : Nat) < 0x100000 ∧ (8 : Nat) ≤ 31 ∧
    BITBAND_ADDR 0x200FFFFF 8 = 0x24000000 ∧
    ¬ BITBAND_ADDR 0x200FFFFF 8 < 0x20000000 + 0x04000000 := by
  decide

/-! ## C15, C14: clock gate and module clock -/

theorem testBit_BITBAND_write_one (reg bit j : Nat) :
    (BITBAND_write reg bit 1).testBit j = (reg.testBit j || decide (bit = j)) := by
  simp [BITBAND_write, Nat.testBit_or, Nat.one_shiftLeft, Nat.testBit_two_pow]

theorem uart_module_enable_uart (k : UartConsts) (u : Nat) (hw : Hw) :
    (uart_module_enable k u hw).1.uart = hw.uart := by
  unfold uart_module_enable
  split <;> rfl

theorem uart_module_enable_unknown (k : UartConsts) (n : Nat) (hw : Hw) :
    uart_module_enable k (n + 6) hw = (hw, [SysEvent.debugger_break_invalid_param]) := rfl

theorem uart_init_clock_unknown (clk : Clocks) (n f : Nat) :
    uart_init_clock clk (n + 6) f = if f = 0 then none else some f := by
  unfold uart_init_clock
  split <;> rfl

theorem uart_init_irq_unknown (conf_enable : Nat → Bool) (n : Nat) :
    uart_init_irq conf_enable (n + 6) = [] := by
  unfold uart_init_irq
  rw [if_neg]
  omega

/-- C15: `uart_module_enable` reports the invalid-parameter debug trap exactly when
`uart_num` is not in 0..5, and then changes no register; for `uart_num` in 0..3 it sets the
module's clock-gate bit in `SCGC4` and no other bit and leaves `SCGC1` alone, for 4 and 5 it
sets the module's bit in `SCGC1` and no other bit and leaves `SCGC4` alone; the line
registers are never touched. `uart_init` reports the trap, once, for every `uart_num`
outside 0..5, whatever `module_clk_hz` and `baud` are. -/
theorem C15_module_enable_trap (k : UartConsts) (clk : Clocks) (conf_enable : Nat → Bool)
    (uart_num module_clk_hz baud : Nat) (hw : Hw) :
    (SysEvent.debugger_break_invalid_param ∈ (uart_module_enable k uart_num hw).2
      ↔ ¬ uart_num ≤ 5) ∧
    (¬ uart_num ≤ 5 → (uart_module_enable k uart_num hw).1 = hw) ∧
    (uart_num ≤ 3 →
      (∀ j, (uart_module_enable k uart_num hw).1.SCGC4.testBit j
        = (hw.SCGC4.testBit j || decide (clockGateShift k uart_num = j))) ∧
      (uart_module_enable k uart_num hw).1.SCGC1 = hw.SCGC1) ∧
    (4 ≤ uart_num → uart_num ≤ 5 →
      (∀ j, (uart_module_enable k uart_num hw).1.SCGC1.testBit j
        = (hw.SCGC1.testBit j || decide (clockGateShift k uart_num = j))) ∧
      (uart_module_enable k uart_num hw).1.SCGC4 = hw.SCGC4) ∧
    (uart_module_enable k uart_num hw).1.uart = hw.uart ∧
    (¬ uart_num ≤ 5 →
      (uart_init k clk conf_enable uart_num module_clk_hz baud hw).2.count
        SysEvent.debugger_break_invalid_param = 1) := by
  refine ⟨?_, ?_, ?_, ?_, uart_module_enable_uart k uart_num hw, ?_⟩
  · rcases uart_num with _ | _ | _ | _ | _ | _ | n <;> simp [uart_module_enable]
  · intro h
    obtain ⟨n, rfl⟩ : ∃ n, uart_num = n + 6 := ⟨uart_num - 6, by omega⟩
    rfl
  · intro h
    rcases uart_num with _ | _ | _ | _ | n
    · exact ⟨fun j => testBit_BITBAND_write_one _ _ j, rfl⟩
    · exact ⟨fun j => testBit_BITBAND_write_one _ _ j, rfl⟩
    · exact ⟨fun j => testBit_BITBAND_write_one _ _ j, rfl⟩
    · exact ⟨fun j => testBit_BITBAND_write_one _ _ j, rfl⟩
    · omega
  · intro h4 h5
    rcases uart_num with _ | _ | _ | _ | _ | _ | n
    · omega
    · omega
    · omega
    · omega
    · exact ⟨fun j => testBit_BITBAND_write_one _ _ j, rfl⟩
    · exact ⟨fun j => testBit_BITBAND_write_one _ _ j, rfl⟩
    · omega
  · intro h
    obtain ⟨n, rfl⟩ : ∃ n, uart_num = n + 6 := ⟨uart_num - 6, by omega⟩
    unfold uart_init
    rw [uart_init_clock_unknown]
    by_cases hf : module_clk_hz = 0
    · rw [if_pos hf]
      rfl
    · rw [if_neg hf]
      simp only [uart_module_enable_unknown, uart_init_irq_unknown]
      rfl

/-- C15, concrete calls with the K60 constants: module 7 is rejected, module 4 gets bit 10
of `SCGC1`, and `uart_init` on line 7 with an explicit clock reports the trap once. -/
theorem C15_module_enable_trap_witness :
    (uart_module_enable k60Consts 7 (hwAll 0)).1 = hwAll 0 ∧
    ((∀ j, (uart_module_enable k60Consts 4 (hwAll 0)).1.SCGC1.testBit j
        = ((hwAll 0).SCGC1.testBit j || decide (clockGateShift k60Consts 4 = j))) ∧
      (uart_module_enable k60Consts 4 (hwAll 0)).1.SCGC4 = (hwAll 0).SCGC4) ∧
    (uart_init k60Consts clocks100 (fun _ => true) 7 50000000 115200 (hwAll 0)).2.count
      SysEvent.debugger_break_invalid_param = 1 :=
  ⟨(C15_module_enable_trap k60Consts clocks100 (fun _ => true) 7 50000000 115200
      (hwAll 0)).2.1 (by decide),
    (C15_module_enable_trap k60Consts clocks100 (fun _ => true) 4 50000000 115200
      (hwAll 0)).2.2.2.1 (by decide) (by decide),
    (C15_module_enable_trap k60Consts clocks100 (fun _ => true) 7 50000000 115200
      (hwAll 0)).2.2.2.2.2 (by decide)⟩

/-- For the lines 0..4, `uart_init` with `module_clk_hz = 0` behaves as with the current
module clock given explicitly whenever that clock is not zero: the system clock for lines 0
and 1, the bus clock for lines 2, 3 and 4. -/
theorem uart_init_default_clock (k : UartConsts) (clk : Clocks) (conf_enable : Nat → Bool)
    (uart_num baud : Nat) (hw : Hw) (hu : uart_num ≤ 4)
    (hsys : clk.SystemSysClock ≠ 0) (hbus : clk.SystemBusClock ≠ 0) :
    uart_init k clk conf_enable uart_num 0 baud hw
      = uart_init k clk conf_enable uart_num
          (if uart_num ≤ 1 then clk.SystemSysClock else clk.SystemBusClock) baud hw ∧
    SysEvent.debugger_break_invalid_param
      ∉ (uart_init k clk conf_enable uart_num 0 baud hw).2 := by
  rcases uart_num with _ | _ | _ | _ | _ | n
  all_goals first
    | omega
    | simp [uart_init, uart_init_clock, uart_module_enable, uart_init_irq, hsys, hbus]

/-- C14 at the failing input: `uart_init(5, 0, baud)` takes the `default` branch of the
clock switch, reports the invalid-parameter trap and returns with every register as it was,
although `uart_module_enable(5)` accepts the module without a trap and `uart_init` of line
5 with an explicit clock reports no trap. -/
theorem C14_uart5_default_clock_trap (k : UartConsts) (clk : Clocks)
    (conf_enable : Nat → Bool) (baud f : Nat) (hw : Hw) :
    uart_init k clk conf_enable 5 0 baud hw = (hw, [SysEvent.debugger_break_invalid_param]) ∧
    (uart_module_enable k 5 hw).2 = [] ∧
    SysEvent.debugger_break_invalid_param
      ∉ (uart_init k clk conf_enable 5 (f + 1) baud hw).2 := by
  refine ⟨rfl, rfl, ?_⟩
  simp [uart_init, uart_init_clock, uart_module_enable, uart_init_irq]

/-! ## C13: receive-interrupt enable and disable -/

theorem testBit_mod_256 (x j : Nat) :
    (x % 256).testBit j = (decide (j < 8) && x.testBit j) := by
  have h : (256 : Nat) = 2 ^ 8 := by norm_num
  rw [h, Nat.testBit_mod_two_pow]

theorem testBit_clearBits (x m j : Nat) :
    (clearBits x m).testBit j = (x.testBit j && !m.testBit j) := by
  simp only [clearBits, Nat.testBit_xor, Nat.testBit_and]
  cases x.testBit j <;> cases m.testBit j <;> rfl

/-- C13 (amended): for every line and every register state, `uart_enable_rx_interrupt` sets
the bits of RIE and RE in `C2` and of RXEDGIE in `BDH`, `uart_disable_rx_interrupt` clears
those bits, and each leaves every other bit of the 8-bit registers `C2` and `BDH`, every
other register of the line, every other line and the clock gates unchanged. Enable raises
the LLS inhibit counter by one modulo 2 ^ 32 and disable lowers it by one modulo 2 ^ 32:
plus one exactly below 2 ^ 32 - 1, minus one exactly above 0, a wrap to 0 from 2 ^ 32 - 1
and to 2 ^ 32 - 1 from 0. Neither touches the STOP or the VLPS counter, and enable
followed by disable returns a 32-bit LLS counter, and with it the whole driver state, to
what it was. -/
theorem C13_rx_interrupt_enable_disable (k : UartConsts) (u : Nat) (hw : Hw) (s : Driver) :
    (∀ j, j < 8 → ((uart_enable_rx_interrupt k u hw s).1.uart u).C2.testBit j
      = ((hw.uart u).C2.testBit j || k.UART_C2_RIE_MASK.testBit j
          || k.UART_C2_RE_MASK.testBit j)) ∧
    (∀ j, j < 8 → ((uart_enable_rx_interrupt k u hw s).1.uart u).BDH.testBit j
      = ((hw.uart u).BDH.testBit j || k.UART_BDH_RXEDGIE_MASK.testBit j)) ∧
    (∀ j, j < 8 → ((uart_disable_rx_interrupt k u hw s).1.uart u).C2.testBit j
      = ((hw.uart u).C2.testBit j && !k.UART_C2_RIE_MASK.testBit j
          && !k.UART_C2_RE_MASK.testBit j)) ∧
    (∀ j, j < 8 → ((uart_disable_rx_interrupt k u hw s).1.uart u).BDH.testBit j
      = ((hw.uart u).BDH.testBit j && !k.UART_BDH_RXEDGIE_MASK.testBit j)) ∧
    ((uart_enable_rx_interrupt k u hw s).1.uart u
      = { hw.uart u with
          C2 := ((uart_enable_rx_interrupt k u hw s).1.uart u).C2
          BDH := ((uart_enable_rx_interrupt k u hw s).1.uart u).BDH }) ∧
    ((uart_disable_rx_interrupt k u hw s).1.uart u
      = { hw.uart u with
          C2 := ((uart_disable_rx_interrupt k u hw s).1.uart u).C2
          BDH := ((uart_disable_rx_interrupt k u hw s).1.uart u).BDH }) ∧
    (∀ v, v ≠ u → (uart_enable_rx_interrupt k u hw s).1.uart v = hw.uart v ∧
      (uart_disable_rx_interrupt k u hw s).1.uart v = hw.uart v) ∧
    ((uart_enable_rx_interrupt k u hw s).1.SCGC1 = hw.SCGC1 ∧
      (uart_enable_rx_interrupt k u hw s).1.SCGC4 = hw.SCGC4 ∧
      (uart_disable_rx_interrupt k u hw s).1.SCGC1 = hw.SCGC1 ∧
      (uart_disable_rx_interrupt k u hw s).1.SCGC4 = hw.SCGC4) ∧
    (uart_enable_rx_interrupt k u hw s).2
      = { s with llwu_inhibit_lls_sema := exclusive_increment s.llwu_inhibit_lls_sema } ∧
    (uart_disable_rx_interrupt k u hw s).2
      = { s with llwu_inhibit_lls_sema := exclusive_decrement s.llwu_inhibit_lls_sema } ∧
    (s.llwu_inhibit_lls_sema < 4294967295 →
      (uart_enable_rx_interrupt k u hw s).2.llwu_inhibit_lls_sema
        = s.llwu_inhibit_lls_sema + 1) ∧
    (0 < s.llwu_inhibit_lls_sema → s.llwu_inhibit_lls_sema < 4294967296 →
      (uart_disable_rx_interrupt k u hw s).2.llwu_inhibit_lls_sema + 1
        = s.llwu_inhibit_lls_sema) ∧
    (uart_enable_rx_interrupt k u hw s).2.llwu_inhibit_lls_sema
      = (s.llwu_inhibit_lls_sema + 1) % 4294967296 ∧
    ((uart_disable_rx_interrupt k u hw s).2.llwu_inhibit_lls_sema + 1) % 4294967296
      = s.llwu_inhibit_lls_sema % 4294967296 ∧
    (s.llwu_inhibit_lls_sema < 4294967296 →
      (uart_disable_rx_interrupt k u (uart_enable_rx_interrupt k u hw s).1
        (uart_enable_rx_interrupt k u hw s).2).2 = s) := by
  refine ⟨?_, ?_, ?_, ?_, ?_, ?_, ?_, ?_, rfl, rfl, ?_, ?_, rfl, ?_, ?_⟩
  · intro j hj
    simp [uart_enable_rx_interrupt, storeRegs, testBit_mod_256, Nat.testBit_or, hj]
  · intro j hj
    simp [uart_enable_rx_interrupt, storeRegs, testBit_mod_256, Nat.testBit_or, hj]
  · intro j hj
    simp [uart_disable_rx_interrupt, storeRegs, testBit_mod_256, testBit_clearBits, hj]
  · intro j hj
    simp [uart_disable_rx_interrupt, storeRegs, testBit_mod_256, testBit_clearBits, hj]
  · simp [uart_enable_rx_interrupt, storeRegs]
  · simp [uart_disable_rx_interrupt, storeRegs]
  · intro v hv
    simp [uart_enable_rx_interrupt, uart_disable_rx_interrupt, storeRegs, hv]
  · exact ⟨rfl, rfl, rfl, rfl⟩
  · intro h
    show exclusive_increment s.llwu_inhibit_lls_sema = s.llwu_inhibit_lls_sema + 1
    unfold exclusive_increment
    omega
  · intro h0 h1
    show exclusive_decrement s.llwu_inhibit_lls_sema + 1 = s.llwu_inhibit_lls_sema
    unfold exclusive_decrement
    rw [if_neg (by omega)]
    omega
  · show (exclusive_decrement s.llwu_inhibit_lls_sema + 1) % 4294967296
      = s.llwu_inhibit_lls_sema % 4294967296
    unfold exclusive_decrement
    split <;> omega
  · intro h
    show { s with llwu_inhibit_lls_sema :=
      exclusive_decrement (exclusive_increment s.llwu_inhibit_lls_sema) } = s
    rw [exclusive_decrement_increment _ h]

/-- C13, concrete calls on line 0 with the K60 constants, all registers 0 and all counters
0: bit 5 (RIE) of `C2` is set, the LLS counter goes to 1 and comes back to 0. -/
theorem C13_rx_interrupt_enable_disable_witness :
    ((uart_enable_rx_interrupt k60Consts 0 (hwAll 0) (bootState 0)).1.uart 0).C2.testBit 5
      = (((hwAll 0).uart 0).C2.testBit 5 || k60Consts.UART_C2_RIE_MASK.testBit 5
          || k60Consts.UART_C2_RE_MASK.testBit 5) ∧
    (uart_enable_rx_interrupt k60Consts 0 (hwAll 0) (bootState 0)).2.llwu_inhibit_lls_sema
      = (bootState 0).llwu_inhibit_lls_sema + 1 ∧
    (uart_disable_rx_interrupt k60Consts 0
        (uart_enable_rx_interrupt k60Consts 0 (hwAll 0) (bootState 0)).1
        (uart_enable_rx_interrupt k60Consts 0 (hwAll 0) (bootState 0)).2).2 = bootState 0 :=
  ⟨(C13_rx_interrupt_enable_disable k60Consts 0 (hwAll 0) (bootState 0)).1 5 (by decide),
    (C13_rx_interrupt_enable_disable k60Consts 0 (hwAll 0)
      (bootState 0)).2.2.2.2.2.2.2.2.2.2.1 (by decide),
    (C13_rx_interrupt_enable_disable k60Consts 0 (hwAll 0)
      (bootState 0)).2.2.2.2.2.2.2.2.2.2.2.2.2.2 (by decide)⟩

/-- C13 as stated fails at the two ends of the 32-bit counter. With the LLS counter at its
boot value 0, `uart_disable_rx_interrupt` leaves it at 2 ^ 32 - 1, which is not 0 lowered
by one; with the LLS counter at 2 ^ 32 - 1, `uart_enable_rx_interrupt` leaves it at 0,
which is not 2 ^ 32 - 1 raised by one. -/
theorem C13_counterexample :
    ((bootState 0).llwu_inhibit_lls_sema = 0 ∧
      (uart_disable_rx_interrupt k60Consts 0 (hwAll 0)
        (bootState 0)).2.llwu_inhibit_lls_sema = 4294967295 ∧
      ((uart_disable_rx_interrupt k60Consts 0 (hwAll 0)
          (bootState 0)).2.llwu_inhibit_lls_sema : Int)
        ≠ ((bootState 0).llwu_inhibit_lls_sema : Int) - 1) ∧
    ((uart_enable_rx_interrupt k60Consts 0 (hwAll 0)
        { bootState 0 with llwu_inhibit_lls_sema := 4294967295 }).2.llwu_inhibit_lls_sema = 0 ∧
      (uart_enable_rx_interrupt k60Consts 0 (hwAll 0)
        { bootState 0 with llwu_inhibit_lls_sema := 4294967295 }).2.llwu_inhibit_lls_sema
        ≠ 4294967295 + 1) := by
  decide

/-! ## C12: the baud-rate divisor for 50 MHz and 115200 baud -/

theorem field_insert (x m v : Nat) (hv : v &&& m = v) (h8 : v < 256) :
    ((clearBits x m ||| v) % 256) &&& m = v := by
  apply Nat.eq_of_testBit_eq
  intro j
  have hvj : v.testBit j = (v.testBit j && m.testBit j) := by
    conv => lhs; rw [← hv]
    rw [Nat.testBit_and]
  have hhi : ¬ j < 8 → v.testBit j = false := by
    intro hj
    apply Nat.testBit_lt_two_pow
    calc v < 256 := h8
      _ = 2 ^ 8 := by norm_num
      _ ≤ 2 ^ j := Nat.pow_le_pow_right (by norm_num) (by omega)
  simp only [Nat.testBit_and, testBit_mod_256, Nat.testBit_or, testBit_clearBits]
  by_cases hj : j < 8
  · simp only [hj, decide_True, Bool.true_and]
    rw [hvj]
    cases x.testBit j <;> cases m.testBit j <;> cases v.testBit j <;> rfl
  · have h0 := hhi hj
    simp only [hj, decide_False, Bool.false_and, h0]

theorem uart_init_uart (k : UartConsts) (clk : Clocks) (conf_enable : Nat → Bool)
    (u f baud : Nat) (hw : Hw) :
    (uart_init k clk conf_enable u (f + 1) baud hw).1.uart u
      = uart_init_regs k (f + 1) baud (hw.uart u) := by
  simp [uart_init, uart_init_clock, storeRegs, uart_module_enable_uart]

/-- Any divisor pair that is `round(clock / (16 × baud))` with a fine adjust placing the
programmed divisor within one step of 1/32 of `clock / (16 × baud)` gives, for 50 MHz and
115200 baud, a rate `2 × clock / (32 × SBR + BRFA)` within 3 % of 115200. -/
theorem baud_50MHz_115200_any_quantisation (sbr brfa : Nat)
    (hlo : 16 * 115200 * sbr ≤ 50000000 + 8 * 115200)
    (hhi : 50000000 < 16 * 115200 * sbr + 8 * 115200)
    (hq1 : 115200 * (32 * sbr + brfa) ≤ 2 * 50000000 + 115200)
    (hq2 : 2 * 50000000 ≤ 115200 * (32 * sbr + brfa) + 115200) :
    sbr = 27 ∧
    97 * (115200 * (32 * sbr + brfa)) ≤ 100 * (2 * 50000000) ∧
    100 * (2 * 50000000) ≤ 103 * (115200 * (32 * sbr + brfa)) := by
  omega

/-- C12: for a module clock of 50,000,000 Hz and 115200 baud, `UART_SBR` gives 27 and
`UART_BRFA` gives 4; `uart_init` programs them into the divisor bits of `BDH` and `BDL` and
the fine-adjust bits of `C4` of the line (masks 0x1F, 0xFF, 0x1F) so that the 13-bit field
read back is the divisor, which is below 2 ^ 13, and the 5-bit field read back is the fine
adjust; the rate `clock / (16 × (SBR + BRFA / 32))` is within 3 % of 115200. -/
theorem C12_baud_50MHz_115200 (k : UartConsts) (clk : Clocks) (conf_enable : Nat → Bool)
    (u : Nat) (hw : Hw)
    (hBDH : k.UART_BDH_SBR_MASK = 0x1F) (hBDL : k.UART_BDL_SBR_MASK = 0xFF)
    (hC4 : k.UART_C4_BRFA_MASK = 0x1F) :
    UART_SBR 50000000 115200 = 27 ∧
    UART_BRFA 50000000 115200 = 4 ∧
    (((uart_init k clk conf_enable u 50000000 115200 hw).1.uart u).BDH
          &&& k.UART_BDH_SBR_MASK) * 256
        + (((uart_init k clk conf_enable u 50000000 115200 hw).1.uart u).BDL
          &&& k.UART_BDL_SBR_MASK)
      = UART_SBR 50000000 115200 ∧
    ((uart_init k clk conf_enable u 50000000 115200 hw).1.uart u).C4 &&& k.UART_C4_BRFA_MASK
      = UART_BRFA 50000000 115200 ∧
    UART_SBR 50000000 115200 < 8192 ∧
    (115200 : ℚ) * (97 / 100)
      ≤ (50000000 : ℚ)
        / (16 * ((UART_SBR 50000000 115200 : ℚ) + (UART_BRFA 50000000 115200 : ℚ) / 32)) ∧
    (50000000 : ℚ)
        / (16 * ((UART_SBR 50000000 115200 : ℚ) + (UART_BRFA 50000000 115200 : ℚ) / 32))
      ≤ (115200 : ℚ) * (103 / 100) := by
  have hs : UART_SBR 50000000 115200 = 27 := by decide
  have hb : UART_BRFA 50000000 115200 = 4 := by decide
  have hr := uart_init_uart k clk conf_enable u 49999999 115200 hw
  simp only [show 49999999 + 1 = 50000000 by norm_num] at hr
  rw [hr, hs, hb]
  refine ⟨rfl, rfl, ?_, ?_, by norm_num, by norm_num, by norm_num⟩
  · have h1 : (uart_init_regs k 50000000 115200 (hw.uart u)).BDH &&& k.UART_BDH_SBR_MASK
        = 0 := by
      simp only [uart_init_regs, hs, UART_BDH_SBR, hBDH]
      exact field_insert _ 31 0 (by decide) (by decide)
    have h2 : (uart_init_regs k 50000000 115200 (hw.uart u)).BDL &&& k.UART_BDL_SBR_MASK
        = 27 := by
      simp only [uart_init_regs, hs, UART_BDL_SBR, hBDL]
      exact field_insert _ 255 27 (by decide) (by decide)
    rw [h1, h2]
  · simp only [uart_init_regs, hb, UART_C4_BRFA, hC4]
    exact field_insert _ 31 4 (by decide) (by decide)

/-- C12, concrete call with the K60 constants on line 1 with every register at 0xFF
before: the divisor 27 and the fine adjust 4 are read back from `BDH`, `BDL` and `C4`. -/
theorem C12_baud_50MHz_115200_witness :
    (((uart_init k60Consts clocks100 (fun _ => true) 1 50000000 115200
            (hwAll 255)).1.uart 1).BDH &&& k60Consts.UART_BDH_SBR_MASK) * 256
        + (((uart_init k60Consts clocks100 (fun _ => true) 1 50000000 115200
            (hwAll 255)).1.uart 1).BDL &&& k60Consts.UART_BDL_SBR_MASK)
      = UART_SBR 50000000 115200 ∧
    ((uart_init k60Consts clocks100 (fun _ => true) 1 50000000 115200
        (hwAll 255)).1.uart 1).C4 &&& k60Consts.UART_C4_BRFA_MASK
      = UART_BRFA 50000000 115200 :=
  ⟨(C12_baud_50MHz_115200 k60Consts clocks100 (fun _ => true) 1 (hwAll 255)
      rfl rfl rfl).2.2.1,
    (C12_baud_50MHz_115200 k60Consts clocks100 (fun _ => true) 1 (hwAll 255)
      rfl rfl rfl).2.2.2.1⟩

end K60
